import Mathlib

/-!
Verification development for the NEBULA_EMERGENT repository.

Shallow embedding conventions:
* C++ `float` arithmetic is modelled over `ℚ` (exact arithmetic); division by
  zero in `ℚ` yields `0` where IEEE would yield `NaN`/`inf` — each place where
  this matters is noted at the definition.
* `std::sqrt` / `FMath::Exp` and random number draws are not computable over
  `ℚ`; they are passed in as explicit function parameters (oracles).  The
  structural theorems below hold for every choice of oracle, and concrete
  witnesses instantiate the oracles at points where the real function is exact
  (for example `sqrt 0 = 0`, `exp 0 = 1`).
* C++ `int`/`int32` values are modelled as `Int` (no arithmetic here ever
  approaches 2^31, so wrap-around is not modelled).
* loops become folds over `List.range`; a C++ loop `for (i = 0; i < n; i++)`
  with `n : Int` has `n.toNat` iterations (zero when `n` is negative, exactly
  as in C++).
-/

/-! ## Grid structure

`ARCGrid` embeds both `ARCGrid` of NEBULA_ARC_SOLVER_STANDALONE.cpp and
`FARCGrid` of PatternDecoder.cpp: the two C++ structs have identical
data layout (row-major `data[y][x]`, `width`, `height`) and cell accessors
with the same bodies (`getCell`/`GetCell` returns `-1` out of bounds,
`setCell`/`SetCell` ignores out-of-bounds writes). -/

structure ARCGrid where
  data : List (List Int)
  width : Int
  height : Int
deriving DecidableEq, Repr

instance : Inhabited ARCGrid := ⟨⟨[], 0, 0⟩⟩

/-- The `ARCGrid(int w, int h)` / `FARCGrid(int32 W, int32 H)` constructor:
zero-filled `h` rows of `w` columns. -/
def mkGrid (w h : Int) : ARCGrid :=
  ⟨List.replicate h.toNat (List.replicate w.toNat 0), w, h⟩

def ARCGrid.inBounds (g : ARCGrid) (x y : Int) : Prop :=
  0 ≤ x ∧ x < g.width ∧ 0 ≤ y ∧ y < g.height

instance (g : ARCGrid) (x y : Int) : Decidable (g.inBounds x y) := by
  unfold ARCGrid.inBounds; infer_instance

/-- `getCell` / `GetCell`: bounds-checked read, `-1` out of bounds. -/
def ARCGrid.getCell (g : ARCGrid) (x y : Int) : Int :=
  if g.inBounds x y then (g.data.getD y.toNat []).getD x.toNat 0 else -1

/-- `setCell` / `SetCell`: bounds-checked write, no-op out of bounds. -/
def ARCGrid.setCell (g : ARCGrid) (x y v : Int) : ARCGrid :=
  if g.inBounds x y then
    { g with data := g.data.set y.toNat ((g.data.getD y.toNat []).set x.toNat v) }
  else g

/-- Well-formedness: the `data` rows actually have the advertised dimensions
(true of every grid the C++ code constructs). -/
def ARCGrid.Wf (g : ARCGrid) : Prop :=
  0 ≤ g.width ∧ 0 ≤ g.height ∧ g.data.length = g.height.toNat ∧
    ∀ row ∈ g.data, row.length = g.width.toNat

theorem mkGrid_wf (w h : Int) (hw : 0 ≤ w) (hh : 0 ≤ h) : (mkGrid w h).Wf := by
  refine ⟨hw, hh, by simp [mkGrid], ?_⟩
  intro row hrow
  simp [mkGrid] at hrow
  simp [mkGrid, hrow.2]

@[simp] theorem setCell_width (g : ARCGrid) (x y v : Int) :
    (g.setCell x y v).width = g.width := by
  unfold ARCGrid.setCell; split <;> rfl

@[simp] theorem setCell_height (g : ARCGrid) (x y v : Int) :
    (g.setCell x y v).height = g.height := by
  unfold ARCGrid.setCell; split <;> rfl

theorem setCell_wf (g : ARCGrid) (x y v : Int) (h : g.Wf) : (g.setCell x y v).Wf := by
  obtain ⟨h1, h2, h3, h4⟩ := h
  unfold ARCGrid.setCell
  split
  · refine ⟨h1, h2, by simpa using h3, ?_⟩
    intro row hrow
    rcases List.mem_or_eq_of_mem_set hrow with hrow | hrow
    · exact h4 _ hrow
    · subst hrow
      rw [List.length_set]
      rcases Nat.lt_or_ge y.toNat g.data.length with hy | hy
      · rw [List.getD_eq_getElem _ _ hy]
        exact h4 _ (List.getElem_mem hy)
      · exfalso
        rename_i hb
        obtain ⟨hx0, hxw, hy0, hyh⟩ := hb
        rw [h3] at hy
        omega
  · exact ⟨h1, h2, h3, h4⟩

theorem getCell_out_of_bounds (g : ARCGrid) (x y : Int) (h : ¬ g.inBounds x y) :
    g.getCell x y = -1 := by
  unfold ARCGrid.getCell; simp [h]

theorem setCell_out_of_bounds (g : ARCGrid) (x y v : Int) (h : ¬ g.inBounds x y) :
    g.setCell x y v = g := by
  unfold ARCGrid.setCell; simp [h]

/-- C3: For every grid and every coordinate pair outside
`[0, width) × [0, height)`, `getCell` returns the invalid sentinel `-1` and
`setCell` leaves every cell (indeed the whole grid) unchanged. -/
theorem C3_out_of_bounds_access (g : ARCGrid) (x y v : Int)
    (h : ¬ g.inBounds x y) :
    g.getCell x y = -1 ∧ g.setCell x y v = g ∧
      ∀ a b : Int, (g.setCell x y v).getCell a b = g.getCell a b := by
  refine ⟨getCell_out_of_bounds g x y h, setCell_out_of_bounds g x y v h, ?_⟩
  intro a b
  rw [setCell_out_of_bounds g x y v h]

/-- Witness for C3 at a concrete grid and out-of-bounds coordinate. -/
theorem C3_out_of_bounds_access_witness :
    (mkGrid 2 2).getCell 5 (-1) = -1 ∧ (mkGrid 2 2).setCell 5 (-1) 7 = mkGrid 2 2 := by
  have h : ¬ (mkGrid 2 2).inBounds 5 (-1) := by decide
  obtain ⟨h1, h2, _⟩ := C3_out_of_bounds_access (mkGrid 2 2) 5 (-1) 7 h
  exact ⟨h1, h2⟩

/-! ## Pointwise characterization of `setCell`, and sequences of writes -/

theorem listGetD_set_ne {α : Type} (l : List α) (i j : Nat) (w d : α) (h : i ≠ j) :
    (l.set i w).getD j d = l.getD j d := by
  rcases Nat.lt_or_ge j l.length with hj | hj
  · rw [List.getD_eq_getElem _ _ (by simpa using hj), List.getElem_set_ne (by omega),
        ← List.getD_eq_getElem _ d hj]
  · rw [List.getD_eq_default _ _ (by simpa using hj), List.getD_eq_default _ _ hj]

theorem listGetD_set_self {α : Type} (l : List α) (i : Nat) (w d : α)
    (h : i < l.length) : (l.set i w).getD i d = w := by
  rw [List.getD_eq_getElem _ _ (by simpa using h), List.getElem_set_self]

theorem getCell_setCell_ne (g : ARCGrid) (x y v a b : Int)
    (hne : a ≠ x ∨ b ≠ y) :
    (g.setCell x y v).getCell a b = g.getCell a b := by
  unfold ARCGrid.setCell
  split
  · rename_i hin
    obtain ⟨hx0, hxw, hy0, hyh⟩ := hin
    unfold ARCGrid.getCell ARCGrid.inBounds
    dsimp only
    by_cases hab : 0 ≤ a ∧ a < g.width ∧ 0 ≤ b ∧ b < g.height
    · rw [if_pos hab, if_pos hab]
      obtain ⟨ha0, haw, hb0, hbh⟩ := hab
      by_cases hby : b.toNat = y.toNat
      · have hbyI : b = y := by omega
        have hax : a ≠ x := by
          rcases hne with h | h
          · exact h
          · exact absurd hbyI h
        rcases Nat.lt_or_ge y.toNat g.data.length with hy | hy
        · rw [hby, listGetD_set_self _ _ _ _ hy,
              listGetD_set_ne _ _ _ _ _ (by omega)]
        · rw [List.set_eq_of_length_le hy]
      · rw [listGetD_set_ne _ _ _ _ _ (by omega)]
    · rw [if_neg hab, if_neg hab]
  · rfl

theorem getCell_setCell_self (g : ARCGrid) (x y v : Int)
    (hwf : g.Wf) (hin : g.inBounds x y) :
    (g.setCell x y v).getCell x y = v := by
  obtain ⟨hx0, hxw, hy0, hyh⟩ := hin
  obtain ⟨h1, h2, h3, h4⟩ := hwf
  unfold ARCGrid.setCell
  rw [if_pos ⟨hx0, hxw, hy0, hyh⟩]
  unfold ARCGrid.getCell
  rw [if_pos ⟨hx0, hxw, hy0, hyh⟩]
  simp only
  have hylt : y.toNat < g.data.length := by rw [h3]; omega
  have hrow : (g.data.getD y.toNat []).length = g.width.toNat := by
    rw [List.getD_eq_getElem _ _ hylt]
    exact h4 _ (List.getElem_mem hylt)
  rw [listGetD_set_self _ _ _ _ hylt, listGetD_set_self _ _ _ _ (by rw [hrow]; omega)]

/-- A sequence of `setCell` writes `((x, y), v)` applied left to right.
Each doubly-nested write loop in the C++ sources is an instance of this with
an explicit write list. -/
def applyWrites (g : ARCGrid) (ws : List ((Int × Int) × Int)) : ARCGrid :=
  ws.foldl (fun a w => a.setCell w.1.1 w.1.2 w.2) g

/-- The last value written at `(x, y)` by a write sequence, if any. -/
def lastWrite (ws : List ((Int × Int) × Int)) (x y : Int) : Option Int :=
  match ws with
  | [] => none
  | w :: rest =>
      match lastWrite rest x y with
      | some v => some v
      | none => if w.1.1 = x ∧ w.1.2 = y then some w.2 else none

@[simp] theorem applyWrites_nil (g : ARCGrid) : applyWrites g [] = g := rfl

theorem applyWrites_cons (g : ARCGrid) (w : (Int × Int) × Int) (ws : List ((Int × Int) × Int)) :
    applyWrites g (w :: ws) = applyWrites (g.setCell w.1.1 w.1.2 w.2) ws := rfl

theorem applyWrites_append (g : ARCGrid) (l₁ l₂ : List ((Int × Int) × Int)) :
    applyWrites g (l₁ ++ l₂) = applyWrites (applyWrites g l₁) l₂ :=
  List.foldl_append ..

@[simp] theorem applyWrites_width (g : ARCGrid) (ws : List ((Int × Int) × Int)) :
    (applyWrites g ws).width = g.width := by
  induction ws generalizing g with
  | nil => rfl
  | cons w rest ih => rw [applyWrites_cons, ih, setCell_width]

@[simp] theorem applyWrites_height (g : ARCGrid) (ws : List ((Int × Int) × Int)) :
    (applyWrites g ws).height = g.height := by
  induction ws generalizing g with
  | nil => rfl
  | cons w rest ih => rw [applyWrites_cons, ih, setCell_height]

theorem applyWrites_wf (g : ARCGrid) (ws : List ((Int × Int) × Int)) (h : g.Wf) :
    (applyWrites g ws).Wf := by
  induction ws generalizing g with
  | nil => exact h
  | cons w rest ih => rw [applyWrites_cons]; exact ih _ (setCell_wf _ _ _ _ h)

theorem lastWrite_cons (w : (Int × Int) × Int) (ws : List ((Int × Int) × Int)) (x y : Int) :
    lastWrite (w :: ws) x y =
      match lastWrite ws x y with
      | some v => some v
      | none => if w.1.1 = x ∧ w.1.2 = y then some w.2 else none := rfl

theorem lastWrite_append (l₁ l₂ : List ((Int × Int) × Int)) (x y : Int) :
    lastWrite (l₁ ++ l₂) x y =
      match lastWrite l₂ x y with
      | some v => some v
      | none => lastWrite l₁ x y := by
  induction l₁ with
  | nil => simp only [List.nil_append]; cases lastWrite l₂ x y <;> rfl
  | cons w rest ih =>
      rw [List.cons_append, lastWrite_cons, ih, lastWrite_cons]
      cases lastWrite l₂ x y <;> cases lastWrite rest x y <;> rfl

/-- Main write-sequence characterization: the final grid holds, at each
in-bounds cell, the last value written there (or the original value if the
cell was never written); out-of-bounds reads still return `-1`. -/
theorem getCell_applyWrites (g : ARCGrid) (ws : List ((Int × Int) × Int))
    (hwf : g.Wf) (x y : Int) :
    (applyWrites g ws).getCell x y =
      if g.inBounds x y then
        match lastWrite ws x y with
        | some v => v
        | none => g.getCell x y
      else -1 := by
  induction ws generalizing g with
  | nil =>
      simp only [applyWrites_nil, lastWrite]
      split
      · rfl
      · exact getCell_out_of_bounds g x y (by assumption)
  | cons w rest ih =>
      rw [applyWrites_cons, ih _ (setCell_wf _ _ _ _ hwf)]
      have hbounds : (g.setCell w.1.1 w.1.2 w.2).inBounds x y ↔ g.inBounds x y := by
        unfold ARCGrid.inBounds
        rw [setCell_width, setCell_height]
      by_cases hin : g.inBounds x y
      · rw [if_pos (hbounds.mpr hin), if_pos hin]
        simp only [lastWrite]
        cases hlw : lastWrite rest x y with
        | some v => rfl
        | none =>
            simp only
            by_cases hw : w.1.1 = x ∧ w.1.2 = y
            · rw [if_pos hw, hw.1, hw.2]
              exact getCell_setCell_self g x y w.2 hwf hin
            · rw [if_neg hw]
              refine getCell_setCell_ne g _ _ _ _ _ ?_
              by_cases h1 : w.1.1 = x
              · right; intro h2; exact hw ⟨h1, h2.symm⟩
              · left; intro h2; exact h1 h2.symm
      · rw [if_neg (fun hc => hin (hbounds.mp hc)), if_neg hin]

/-! ## Pattern detector (NEBULA_ARC_SOLVER_STANDALONE.cpp, `PatternDetector`) -/

/-- `Pattern` of NEBULA_ARC_SOLVER_STANDALONE.cpp; the default constructor
sets `color = 0`, `confidence = 0`, empty positions. -/
structure Pattern where
  type : String
  positions : List (Int × Int)
  color : Int
  confidence : ℚ
deriving DecidableEq, Repr

/-- All ordered pairs `(l[i], l[j])` with `i < j`, in the C++ double-loop
order (`i` outer, `j = i+1..` inner). -/
def ordPairs {α : Type} : List α → List (α × α)
  | [] => []
  | a :: rest => rest.map (fun b => (a, b)) ++ ordPairs rest

/-- `PatternDetector::detectRectangles`. -/
def detectRectangles (grid : ARCGrid) : List Pattern :=
  (List.range 9).flatMap (fun (c : Nat) =>
    let color : Int := (c : Int) + 1
    let colorCells : List (Int × Int) :=
      (List.range grid.height.toNat).flatMap (fun (yn : Nat) =>
        (List.range grid.width.toNat).filterMap (fun (xn : Nat) =>
          if grid.getCell (xn : Int) (yn : Int) = color then
            some ((xn : Int), (yn : Int))
          else none))
    if 4 ≤ colorCells.length then
      (ordPairs colorCells).filterMap (fun pq =>
        if pq.1.1 ≠ pq.2.1 ∧ pq.1.2 ≠ pq.2.2 then
          let corners : List (Int × Int) :=
            [(pq.1.1, pq.1.2), (pq.1.1, pq.2.2), (pq.2.1, pq.1.2), (pq.2.1, pq.2.2)]
          if corners.all (fun corner => grid.getCell corner.1 corner.2 == color) then
            some ⟨"rectangle", corners, color, 4/5⟩
          else none
        else none)
    else [])

/-- One row of `PatternDetector::detectLines` (the horizontal-line scan):
a fold carrying `(currentColor, lineStart, emitted patterns)` over
`x = 0 .. width` inclusive, with the virtual `-1` cell at `x = width`. -/
def detectLinesRow (grid : ARCGrid) (y : Int) : List Pattern :=
  ((List.range (grid.width + 1).toNat).foldl
    (fun (st : Int × Int × List Pattern) (xn : Nat) =>
      let x : Int := (xn : Int)
      let cellColor : Int := if x < grid.width then grid.getCell x y else -1
      if cellColor ≠ st.1 then
        let acc2 :=
          if 0 < st.1 ∧ 3 ≤ x - st.2.1 then
            st.2.2 ++ [⟨"horizontal_line",
              (List.range (x - st.2.1).toNat).map (fun (k : Nat) => (st.2.1 + (k : Int), y)),
              st.1, 7/10⟩]
          else st.2.2
        (cellColor, x, acc2)
      else st)
    (-1, -1, [])).2.2

/-- One column of `PatternDetector::detectLines` (the vertical-line scan). -/
def detectLinesCol (grid : ARCGrid) (x : Int) : List Pattern :=
  ((List.range (grid.height + 1).toNat).foldl
    (fun (st : Int × Int × List Pattern) (yn : Nat) =>
      let y : Int := (yn : Int)
      let cellColor : Int := if y < grid.height then grid.getCell x y else -1
      if cellColor ≠ st.1 then
        let acc2 :=
          if 0 < st.1 ∧ 3 ≤ y - st.2.1 then
            st.2.2 ++ [⟨"vertical_line",
              (List.range (y - st.2.1).toNat).map (fun (k : Nat) => (x, st.2.1 + (k : Int))),
              st.1, 7/10⟩]
          else st.2.2
        (cellColor, y, acc2)
      else st)
    (-1, -1, [])).2.2

/-- `PatternDetector::detectLines`: all rows, then all columns. -/
def detectLines (grid : ARCGrid) : List Pattern :=
  (List.range grid.height.toNat).flatMap (fun (yn : Nat) => detectLinesRow grid (yn : Int)) ++
    (List.range grid.width.toNat).flatMap (fun (xn : Nat) => detectLinesCol grid (xn : Int))

/-- The horizontal-mirror test of `PatternDetector::detectSymmetries`
(`x` runs to `width / 2`, C++ integer division). -/
def horizontalSymmetryCheck (grid : ARCGrid) : Bool :=
  (List.range grid.height.toNat).all (fun (yn : Nat) =>
    (List.range (grid.width.toNat / 2)).all (fun (xn : Nat) =>
      grid.getCell (xn : Int) (yn : Int) ==
        grid.getCell (grid.width - 1 - (xn : Int)) (yn : Int)))

/-- The vertical-mirror test of `PatternDetector::detectSymmetries`. -/
def verticalSymmetryCheck (grid : ARCGrid) : Bool :=
  (List.range (grid.height.toNat / 2)).all (fun (yn : Nat) =>
    (List.range grid.width.toNat).all (fun (xn : Nat) =>
      grid.getCell (xn : Int) (yn : Int) ==
        grid.getCell (xn : Int) (grid.height - 1 - (yn : Int))))

/-- `PatternDetector::detectSymmetries`. -/
def detectSymmetries (grid : ARCGrid) : List Pattern :=
  (if horizontalSymmetryCheck grid then [⟨"horizontal_symmetry", [], 0, 9/10⟩] else []) ++
    (if verticalSymmetryCheck grid then [⟨"vertical_symmetry", [], 0, 9/10⟩] else [])

/-- The `blockSize × blockSize` block of cells whose top-left corner is
`(x, y)`, row-major (`block[by][bx] = getCell (x+bx) (y+by)`). -/
def blockAt (grid : ARCGrid) (x y : Int) (blockSize : Nat) : List (List Int) :=
  (List.range blockSize).map (fun (r : Nat) =>
    (List.range blockSize).map (fun (c : Nat) =>
      grid.getCell (x + (c : Int)) (y + (r : Int))))

/-- Insert one `(block, position)` observation into the block map.
The C++ `std::map` keyed by block content groups positions per distinct
block; here the groups are kept in first-occurrence order (the C++ map
iterates them in key order instead — no claim depends on the order in which
distinct groups are listed). -/
def insertBlock (m : List (List (List Int) × List (Int × Int)))
    (k : List (List Int)) (p : Int × Int) :
    List (List (List Int) × List (Int × Int)) :=
  match m with
  | [] => [(k, [p])]
  | e :: rest => if e.1 = k then (e.1, e.2 ++ [p]) :: rest else e :: insertBlock rest k p

/-- The grouped block map of `PatternDetector::detectRepetitions` for one
block size: scan order `y` outer, `x` inner, positions recorded in scan
order within each group. -/
def blockGroups (grid : ARCGrid) (blockSize : Nat) :
    List (List (List Int) × List (Int × Int)) :=
  ((List.range (grid.height - (blockSize : Int) + 1).toNat).flatMap (fun (yn : Nat) =>
    (List.range (grid.width - (blockSize : Int) + 1).toNat).map (fun (xn : Nat) =>
      ((xn : Int), (yn : Int))))).foldl
    (fun m p => insertBlock m (blockAt grid p.1 p.2 blockSize) p) []

/-- `PatternDetector::detectRepetitions`: block sizes `2 .. min(w,h)/2`,
one pattern per block value occurring at least twice. -/
def detectRepetitions (grid : ARCGrid) : List Pattern :=
  let m : Nat := (min grid.width grid.height).toNat / 2
  ((List.range (m - 1)).map (fun k => k + 2)).flatMap (fun blockSize =>
    (blockGroups grid blockSize).filterMap (fun group =>
      if 2 ≤ group.2.length then
        some ⟨"repetition_" ++ (toString blockSize ++ "x" ++ toString blockSize),
          group.2.flatMap (fun pos =>
            (List.range blockSize).flatMap (fun (r : Nat) =>
              (List.range blockSize).map (fun (c : Nat) =>
                (pos.1 + (c : Int), pos.2 + (r : Int))))),
          0, 3/5 + (group.2.length : ℚ) / 10⟩
      else none))

/-- `PatternDetector::detectPatterns`: rectangles, lines, symmetries,
repetitions, concatenated in that order. -/
def detectPatterns (grid : ARCGrid) : List Pattern :=
  detectRectangles grid ++ detectLines grid ++ detectSymmetries grid ++
    detectRepetitions grid

/-! ## NEBULA transformation engine (NEBULA_ARC_SOLVER_STANDALONE.cpp) -/

/-- `ARCGrid::copy()`: a fresh grid with the same data and dimensions — with
value semantics this is the grid itself. -/
def copyGrid (g : ARCGrid) : ARCGrid := g

/-- The `std::set<int>` of colors occurring in a grid (scan `y` outer,
`x` inner; set semantics ignore order and multiplicity). -/
def colorSet (g : ARCGrid) : Finset Int :=
  ((List.range g.height.toNat).flatMap (fun (yn : Nat) =>
    (List.range g.width.toNat).map (fun (xn : Nat) =>
      g.getCell (xn : Int) (yn : Int)))).toFinset

/-- Votes one training pair contributes inside
`NEBULATransformationEngine::solveTransformation` (size change, color-set
change, pattern-count change, in source order). -/
def exampleVotes (inp outg : ARCGrid) : List String :=
  (if inp.width ≠ outg.width ∨ inp.height ≠ outg.height then ["size_change"] else []) ++
    (if colorSet inp ≠ colorSet outg then ["color_change"] else []) ++
    (if (detectPatterns inp).length ≠ (detectPatterns outg).length then
      ["pattern_change"]
    else [])

/-- The full `transformationRules` vote list of `solveTransformation`
(the C++ loop runs `i < inputExamples.size() && i < outputExamples.size()`,
i.e. over the zip). -/
def transformationVotes (inputExamples outputExamples : List ARCGrid) : List String :=
  (inputExamples.zip outputExamples).flatMap (fun pr => exampleVotes pr.1 pr.2)

/-- The dominant-rule selection of `solveTransformation`: starting from
`("copy", 0)`, take each key of the vote-count `std::map` in ascending key
order and switch when its count is strictly larger.  The only possible keys
sort as `"color_change" < "pattern_change" < "size_change"`; a key with
count `0` (absent from the C++ map) can never win the strict comparison,
so folding over the full ordered key list is equivalent. -/
def dominantRule (votes : List String) : String :=
  ((["color_change", "pattern_change", "size_change"]).foldl
    (fun (best : String × Nat) k =>
      let c := votes.count k
      if best.2 < c then (k, c) else best)
    ("copy", 0)).1

/-- `std::map` insertion-or-overwrite (`colorMapping[inputColor] = outputColor`). -/
def mapSet (m : List (Int × Int)) (k v : Int) : List (Int × Int) :=
  match m with
  | [] => [(k, v)]
  | e :: rest => if e.1 = k then (k, v) :: rest else e :: mapSet rest k v

/-- The color mapping built inside the `color_change` branch of
`NEBULATransformationEngine::applyTransformation`: cell-wise mismatches of
the FIRST training pair only, over the overlap of the two grids, later
mismatches overwriting earlier ones. -/
def buildColorMapping (inputExamples outputExamples : List ARCGrid) : List (Int × Int) :=
  match inputExamples, outputExamples with
  | ie :: _, oe :: _ =>
      (List.range (min ie.height oe.height).toNat).foldl (fun (m : List (Int × Int)) (yn : Nat) =>
        (List.range (min ie.width oe.width).toNat).foldl (fun m2 (xn : Nat) =>
          let inputColor := ie.getCell (xn : Int) (yn : Int)
          let outputColor := oe.getCell (xn : Int) (yn : Int)
          if inputColor ≠ outputColor then mapSet m2 inputColor outputColor else m2)
          m) []
  | _, _ => []

/-- One cell of the `color_change` application loop: read the current cell
of the (partially updated) result grid, rewrite it if the mapping has an
entry for its color. -/
def colorCellStep (colorMapping : List (Int × Int)) (Y : Nat) (res2 : ARCGrid)
    (xn : Nat) : ARCGrid :=
  let currentColor := res2.getCell (xn : Int) (Y : Int)
  match colorMapping.lookup currentColor with
  | some v => res2.setCell (xn : Int) (Y : Int) v
  | none => res2

/-- One row of the `color_change` application loop.  (The C++ loop bounds
read `result.width`/`result.height`, which equal the input's dimensions
throughout since `setCell` never changes them.) -/
def colorRowStep (colorMapping : List (Int × Int)) (input : ARCGrid)
    (res : ARCGrid) (Y : Nat) : ARCGrid :=
  (List.range input.width.toNat).foldl (colorCellStep colorMapping Y) res

/-- The `color_change` branch of
`NEBULATransformationEngine::applyTransformation`: copy the input, then
rewrite each cell in place (row-major) through the color mapping. -/
def applyColorChangeInPlace (colorMapping : List (Int × Int))
    (input : ARCGrid) : ARCGrid :=
  (List.range input.height.toNat).foldl (colorRowStep colorMapping input)
    (copyGrid input)

/-- `NEBULATransformationEngine::applyTransformation`.  `Int.tdiv` is C++
truncating integer division (used in the nearest-neighbor resampling). -/
def applyTransformation (input : ARCGrid) (rule : String)
    (inputExamples outputExamples : List ARCGrid) : ARCGrid :=
  if rule = "copy" then copyGrid input
  else if rule = "size_change" then
    match inputExamples, outputExamples with
    | _ :: _, oe :: _ =>
        let newWidth := oe.width
        let newHeight := oe.height
        (List.range newHeight.toNat).foldl (fun res (yn : Nat) =>
          (List.range newWidth.toNat).foldl (fun res2 (xn : Nat) =>
            let x : Int := (xn : Int)
            let y : Int := (yn : Int)
            let srcX := Int.tdiv (x * input.width) newWidth
            let srcY := Int.tdiv (y * input.height) newHeight
            res2.setCell x y (input.getCell srcX srcY)) res)
          (mkGrid newWidth newHeight)
    | _, _ => copyGrid input
  else if rule = "color_change" then
    applyColorChangeInPlace (buildColorMapping inputExamples outputExamples) input
  else if rule = "pattern_change" then
    let patterns := detectPatterns input
    patterns.foldl (fun res p =>
      let res1 : ARCGrid :=
        if p.type = "rectangle" ∧ 7/10 < p.confidence then
          p.positions.foldl (fun a pos => a.setCell pos.1 pos.2 (p.color + 1)) res
        else res
      if ("line".toList <:+: p.type.toList) ∧ 3/5 < p.confidence then
        p.positions.foldl (fun a pos =>
          if p.type = "horizontal_line" then
            let a2 := if 0 < pos.1 then a.setCell (pos.1 - 1) pos.2 p.color else a
            if pos.1 < a2.width - 1 then a2.setCell (pos.1 + 1) pos.2 p.color else a2
          else
            let a2 := if 0 < pos.2 then a.setCell pos.1 (pos.2 - 1) p.color else a
            if pos.2 < a2.height - 1 then a2.setCell pos.1 (pos.2 + 1) p.color else a2)
          res1
      else res1) (copyGrid input)
  else copyGrid input

/-- `NEBULATransformationEngine::solveTransformation` (the console printing
has no effect on the returned grid and is omitted). -/
def solveTransformation (inputExamples outputExamples : List ARCGrid)
    (testInput : ARCGrid) : ARCGrid :=
  applyTransformation testInput
    (dominantRule (transformationVotes inputExamples outputExamples))
    inputExamples outputExamples

/-! ## Transformation rule engine (PatternDecoder.cpp, `FTransformationEngine`) -/

/-- The parts of Unreal's `FTransform` that `FTransformationRule` reads:
`GetTranslation().X/.Y` (translation), the quaternion angle about `UpVector`
set by rule discovery (never read by `Apply` — see C10), and
`GetRotation().Euler().X` (read by `ApplyReflection`). -/
structure FBasicTransform where
  translationX : ℚ
  translationY : ℚ
  rotationAngleZ : ℚ
  rotationEulerX : ℚ
deriving DecidableEq, Repr

instance : Inhabited FBasicTransform := ⟨⟨0, 0, 0, 0⟩⟩

inductive ETransformationType where
  | Translation | Rotation | Reflection | Scaling | ColorMapping
  | PatternFill | Symmetry | Connectivity | Enclosure | Counting
deriving DecidableEq, Repr

/-- `FTransformationEngine::FTransformationRule`.  The C++ field `Type` is
called `ttype` here (`Type` is reserved in Lean); `ColorMap` is the
`TMap<int32,int32>` as an association list. -/
structure FTransformationRule where
  ttype : ETransformationType
  SpatialTransform : FBasicTransform
  ColorMap : List (Int × Int)
  CustomTransform : Option (ARCGrid → ARCGrid)
  Confidence : ℚ

/-- `FMath::RoundToInt` (round half up). -/
def roundToInt (q : ℚ) : Int := ⌊q + 1/2⌋

/-- `FTransformationRule::ApplyTranslation`. -/
def applyTranslation (t : FBasicTransform) (Input : ARCGrid) : ARCGrid :=
  let DX := roundToInt t.translationX
  let DY := roundToInt t.translationY
  (List.range Input.height.toNat).foldl (fun out (yn : Nat) =>
    (List.range Input.width.toNat).foldl (fun out2 (xn : Nat) =>
      let NewX := (xn : Int) + DX
      let NewY := (yn : Int) + DY
      if 0 ≤ NewX ∧ NewX < Input.width ∧ 0 ≤ NewY ∧ NewY < Input.height then
        out2.setCell NewX NewY (Input.getCell (xn : Int) (yn : Int))
      else out2) out)
    (mkGrid Input.width Input.height)

/-- `FTransformationRule::ApplyRotation`: hard-coded quarter turn into an
`Output(Input.Height, Input.Width)` grid via
`Output.SetCell(Input.Height - 1 - Y, X, Input.GetCell(X, Y))`. -/
def applyRotation (Input : ARCGrid) : ARCGrid :=
  (List.range Input.height.toNat).foldl (fun out (yn : Nat) =>
    (List.range Input.width.toNat).foldl (fun out2 (xn : Nat) =>
      out2.setCell (Input.height - 1 - (yn : Int)) (xn : Int)
        (Input.getCell (xn : Int) (yn : Int))) out)
    (mkGrid Input.height Input.width)

/-- `FTransformationRule::ApplyReflection`. -/
def applyReflection (t : FBasicTransform) (Input : ARCGrid) : ARCGrid :=
  let bHorizontal := 0 < t.rotationEulerX
  (List.range Input.height.toNat).foldl (fun out (yn : Nat) =>
    (List.range Input.width.toNat).foldl (fun out2 (xn : Nat) =>
      if bHorizontal then
        out2.setCell (Input.width - 1 - (xn : Int)) (yn : Int)
          (Input.getCell (xn : Int) (yn : Int))
      else
        out2.setCell (xn : Int) (Input.height - 1 - (yn : Int))
          (Input.getCell (xn : Int) (yn : Int))) out)
    (mkGrid Input.width Input.height)

/-- `FTransformationRule::ApplyColorMapping`. -/
def applyColorMapping (cm : List (Int × Int)) (Input : ARCGrid) : ARCGrid :=
  (List.range Input.height.toNat).foldl (fun out (yn : Nat) =>
    (List.range Input.width.toNat).foldl (fun out2 (xn : Nat) =>
      let OldColor := Input.getCell (xn : Int) (yn : Int)
      let NewColor := match cm.lookup OldColor with
        | some v => v
        | none => OldColor
      out2.setCell (xn : Int) (yn : Int) NewColor) out)
    (mkGrid Input.width Input.height)

/-- `FTransformationRule::Apply`. -/
def FTransformationRule.Apply (Rule : FTransformationRule) (Input : ARCGrid) : ARCGrid :=
  match Rule.ttype with
  | .Translation => applyTranslation Rule.SpatialTransform Input
  | .Rotation => applyRotation Input
  | .Reflection => applyReflection Rule.SpatialTransform Input
  | .ColorMapping => applyColorMapping Rule.ColorMap Input
  | _ =>
      match Rule.CustomTransform with
      | some f => f Input
      | none => Input

/-- `FTransformationEngine::GridsMatch`. -/
def GridsMatch (A B : ARCGrid) : Bool :=
  if A.width ≠ B.width ∨ A.height ≠ B.height then false
  else
    (List.range A.height.toNat).all (fun (yn : Nat) =>
      (List.range A.width.toNat).all (fun (xn : Nat) =>
        A.getCell (xn : Int) (yn : Int) == B.getCell (xn : Int) (yn : Int)))

structure FARCExample where
  Input : ARCGrid
  Output : ARCGrid

/-- `FTransformationEngine::ValidateRulesAcrossExamples`: recompute each
rule's confidence as `SuccessCount / Examples.Num()`, drop rules with
confidence `< 0.5`, sort by confidence descending.  (`TArray::Sort` with
the strict predicate `A.Confidence > B.Confidence` is an unstable sort;
`mergeSort` with the corresponding non-strict order produces one of its
admissible results — no property below depends on the order of ties.
With zero examples the C++ float division `0/0` yields `NaN`; in `ℚ` it
yields `0`, and such a rule is dropped by the threshold either way.) -/
def ValidateRulesAcrossExamples (Rules : List FTransformationRule)
    (Examples : List FARCExample) : List FTransformationRule :=
  let updated := Rules.map (fun Rule =>
    let SuccessCount :=
      Examples.countP (fun Example => GridsMatch (Rule.Apply Example.Input) Example.Output)
    { Rule with Confidence := (SuccessCount : ℚ) / (Examples.length : ℚ) })
  let kept := updated.filter (fun Rule => !(Rule.Confidence < 1/2))
  kept.mergeSort (fun A B => decide (B.Confidence ≤ A.Confidence))

/-- `FTransformationEngine::TryDiscoverColorMapping`, returning the list of
rules the call appends.  The `ColorCounts` map of the C++ code is computed
but never read, and is omitted.  `TMap::Add` on a fresh key appends; an
existing key is never overwritten here (first occurrence wins). -/
def TryDiscoverColorMapping (Example : FARCExample) : List FTransformationRule :=
  let ColorMap :=
    (List.range (min Example.Input.height Example.Output.height).toNat).foldl (fun (m : List (Int × Int)) (yn : Nat) =>
      (List.range (min Example.Input.width Example.Output.width).toNat).foldl (fun m2 (xn : Nat) =>
        let InputColor := Example.Input.getCell (xn : Int) (yn : Int)
        let OutputColor := Example.Output.getCell (xn : Int) (yn : Int)
        if InputColor ≠ OutputColor ∧ 0 ≤ InputColor ∧ 0 ≤ OutputColor then
          if (m2.lookup InputColor).isNone then m2 ++ [(InputColor, OutputColor)] else m2
        else m2) m) []
  if 0 < ColorMap.length then
    [⟨.ColorMapping, default, ColorMap, none, 7/10⟩]
  else []

/-! ## Validity oracle (ValidityOracle.cpp) -/

/-- `FValidityOracle::CalculateGridSimilarity`: `0` on dimension mismatch,
otherwise the fraction of equal cells.  (On two `0 × 0` grids the C++ float
`0/0` is `NaN`; in `ℚ` the value is `0`.) -/
def CalculateGridSimilarity (A B : ARCGrid) : ℚ :=
  if A.width ≠ B.width ∨ A.height ≠ B.height then 0
  else
    let Matches : Int :=
      (List.range A.height.toNat).foldl (fun (m : Int) (yn : Nat) =>
        (List.range A.width.toNat).foldl (fun m2 (xn : Nat) =>
          if A.getCell (xn : Int) (yn : Int) = B.getCell (xn : Int) (yn : Int) then
            m2 + 1
          else m2) m) 0
    (Matches : ℚ) / ((A.width * A.height : Int) : ℚ)

structure FNeuronCluster where
  NeuronIDs : List Int

/-- `FValidityOracle::EvaluatePatternValidity`.

Modelled from the spec: `ExtractTransformation`'s dependencies
(`GetNeuron`, `CalculateAngularMomentum`) and `ApplyClusterTransform` are
declared but not defined anywhere in the sources, so the inferred transform
type and those two operations are taken as parameters (`extractTransformation`
infers the cluster's implied transform, `applyClusterTransform` applies it to
a grid, as §4.3 of the spec describes).  The accumulation loop and the final
division are from the source: the score is `TotalScore / TrainingExamples.Num()`
— a function of the cluster and the training examples only; no test or
target grid is ever an input.  (With zero examples the C++ float `0/0` is
`NaN`; in `ℚ` it is `0`.) -/
def EvaluatePatternValidity {T : Type}
    (extractTransformation : FNeuronCluster → T)
    (applyClusterTransform : ARCGrid → T → ARCGrid)
    (Cluster : FNeuronCluster)
    (TrainingExamples : List FARCExample) : ℚ :=
  let ClusterTransform := extractTransformation Cluster
  let TotalScore :=
    TrainingExamples.foldl (fun s Example =>
      s + CalculateGridSimilarity
            (applyClusterTransform Example.Input ClusterTransform) Example.Output) 0
  TotalScore / (TrainingExamples.length : ℚ)

/-! ## Galaxy dynamics (NEBULA_EMERGENT_STANDALONE.cpp, part of
`NEBULAEmergentGalaxy`) -/

/-- `Vector3` with componentwise `+`, `-` and scalar `*` — exactly the
product structure on `ℚ × ℚ × ℚ`. -/
abbrev Vec3 : Type := ℚ × ℚ × ℚ

/-- `x*x + y*y + z*z`, the radicand of `Vector3::magnitude`. -/
def normSq (v : Vec3) : ℚ := v.1 * v.1 + v.2.1 * v.2.1 + v.2.2 * v.2.2

/-- `Vector3::normalized`: `v / |v|` when `|v| > 1e-4`, else the zero
vector.  `sqrtQ` stands for `std::sqrt`. -/
def vnormalized (sqrtQ : ℚ → ℚ) (v : Vec3) : Vec3 :=
  let mag := sqrtQ (normSq v)
  if 1/10000 < mag then (1/mag) • v else (0, 0, 0)

/-- The fields of `Neuron` (part of NEBULA_EMERGENT_STANDALONE.cpp) that the
dynamics functions below read or write. -/
structure GNeuron where
  position : Vec3
  velocity : Vec3
  mass : ℚ
  luminosity : ℚ
  age : ℚ
deriving DecidableEq, Repr

instance : Inhabited GNeuron := ⟨⟨(0, 0, 0), (0, 0, 0), 1, 1, 0⟩⟩

def GRAVITATIONAL_CONSTANT : ℚ := 667430 / 10 ^ 16

/-- `NEBULAEmergentGalaxy::updateNeuronDynamics`.

Randomness: the C++ code draws `rng() % neurons.size()` once per inner-loop
iteration; `draw i j` is the raw generator output for neuron `i`'s `j`-th
draw (any value is realizable), reduced modulo the population size exactly
as in the source.  Neurons are updated sequentially in index order, each
step reading the partially updated array (as the in-place C++ loop does).
`sqrtQ` stands for `std::sqrt`. -/
def updateNeuronDynamics (sqrtQ : ℚ → ℚ) (draw : Nat → Nat → Nat)
    (deltaTime : ℚ) (neurons : List GNeuron) : List GNeuron :=
  let N := neurons.length
  (List.range N).foldl (fun ns (i : Nat) =>
    let n := ns.getD i default
    let sampleSize := min 100 N
    let totalForce :=
      (List.range sampleSize).foldl (fun F (j : Nat) =>
        let idx := draw i j % N
        if idx = i then F
        else
          let other := ns.getD idx default
          let r : Vec3 := other.position - n.position
          let distance := sqrtQ (normSq r)
          if 1/10 < distance then
            let forceMagnitude :=
              GRAVITATIONAL_CONSTANT * n.mass * other.mass / (distance * distance)
            F + forceMagnitude • vnormalized sqrtQ r
          else F) ((0, 0, 0) : Vec3)
    let acceleration := (1 / n.mass) • totalForce
    let v2 := n.velocity + deltaTime • acceleration
    let p2 := n.position + deltaTime • v2
    ns.set i { n with velocity := v2, position := p2, age := n.age + deltaTime })
    neurons

/-! ## Diversity controller (DiversityMaintenance.cpp, `FDiversityController`) -/

/-- The fields of `FNeuronState` that the diversity controller touches. -/
structure FNeuronState where
  Position : Vec3
  Velocity : Vec3
  Luminosity : ℚ
  Energy : ℚ
deriving DecidableEq, Repr

instance : Inhabited FNeuronState := ⟨⟨(0, 0, 0), (0, 0, 0), 0, 0⟩⟩

/-- Oracles for the controller's random draws and transcendental calls:
`sqrtQ` = `FMath::Sqrt` / `FVector::Dist`'s square root, `expQ` =
`FMath::Exp`, `thermalDir i` = the `RandRange(-1,1)` vector for neuron `i`,
`lumNoise i` = `RandRange(-0.1,0.1)`, `repulseDir j` = the random repulsion
direction after `GetSafeNormal`, `perturbIdx/Kick/Roll/Mul k` = the draws of
the `k`-th perturbation iteration. -/
structure DivRand where
  sqrtQ : ℚ → ℚ
  expQ : ℚ → ℚ
  thermalDir : Nat → Vec3
  lumNoise : Nat → ℚ
  repulseDir : Nat → Vec3
  perturbIdx : Nat → Nat
  perturbKick : Nat → Vec3
  perturbRoll : Nat → ℚ
  perturbMul : Nat → ℚ

/-- `FMath::Clamp(X, Min, Max)`. -/
def clampQ (x lo hi : ℚ) : ℚ := if x < lo then lo else if x < hi then x else hi

/-- Indexed in-place array map (`for i: a[i] = f(i, a[i])`). -/
def enumMap {α β : Type} [Inhabited α] (f : Nat → α → β) (l : List α) : List β :=
  (List.range l.length).map (fun i => f i (l.getD i default))

/-- In-place update of one array slot (out-of-range index: no-op). -/
def listUpdate {α : Type} : List α → Nat → (α → α) → List α
  | [], _, _ => []
  | a :: rest, 0, f => f a :: rest
  | a :: rest, i + 1, f => a :: listUpdate rest i f

/-- `FDiversityController::ApplyThermalNoise`: velocity jitter scaled by
`sqrt(T) * 0.01 * dt`, multiplicative luminosity noise scaled by `T/1000`,
then `Clamp(luminosity, 0.1, 100)`. -/
def ApplyThermalNoise (R : DivRand) (SystemTemperature DeltaTime : ℚ)
    (Neurons : List FNeuronState) : List FNeuronState :=
  enumMap (fun i Neuron =>
    let NoiseMagnitude := R.sqrtQ SystemTemperature * (1/100)
    let vel := Neuron.Velocity + (NoiseMagnitude * DeltaTime) • R.thermalDir i
    let LuminosityNoise := R.lumNoise i * SystemTemperature / 1000
    { Neuron with
        Velocity := vel,
        Luminosity := clampQ (Neuron.Luminosity * (1 + LuminosityNoise)) (1/10) 100 })
    Neurons

/-- `FDiversityController::ApplyLateralInhibition`.  The C++ code first
accumulates `InhibitionField[j] += 0.5 * lum_i * exp(-dist/500)` over all
bright (`lum > 5`) neurons `i ≠ j` within distance `500` (loop `i` outer,
`j` inner; addition is commutative, so the per-`j` sum below has the same
value), then divides each luminosity by `1 + field` and, when the field
exceeds `0.1`, kicks the velocity along a random direction scaled by
`field * 10`. -/
def ApplyLateralInhibition (R : DivRand) (Neurons : List FNeuronState) :
    List FNeuronState :=
  let N := Neurons.length
  let InhibitionField : Nat → ℚ := fun j =>
    ((List.range N).map (fun i =>
      let ni := Neurons.getD i default
      let nj := Neurons.getD j default
      let Distance := R.sqrtQ (normSq (ni.Position - nj.Position))
      if i ≠ j ∧ 5 < ni.Luminosity ∧ Distance < 500 then
        (1/2) * ni.Luminosity * R.expQ (-Distance / 500)
      else 0)).sum
  enumMap (fun j n =>
    let L := n.Luminosity / (1 + InhibitionField j)
    if 1/10 < InhibitionField j then
      { n with
          Luminosity := L,
          Velocity := n.Velocity + (InhibitionField j * 10) • R.repulseDir j }
    else { n with Luminosity := L }) Neurons

/-- `FDiversityController::ApplyDiversityPressure`.

Modelled from the spec: `IdentifyClusters` is declared but not defined
anywhere in the sources; per spec §4.2/§2 clusters are connected components
of the proximity graph, and only the member index lists matter here, so the
cluster decomposition is a parameter.  A cluster holding more than
`Neurons.Num() / 10` members has every member's luminosity damped by `0.95`
and energy by `0.9` (from the source). -/
def ApplyDiversityPressure (Clusters : List (List Nat))
    (Neurons : List FNeuronState) : List FNeuronState :=
  Clusters.foldl (fun ns Cluster =>
    if ns.length / 10 < Cluster.length then
      Cluster.foldl (fun ns2 ID =>
        listUpdate ns2 ID (fun n =>
          { n with
              Luminosity := n.Luminosity * (19/20),
              Energy := n.Energy * (9/10) })) ns
    else ns) Neurons

/-- `FDiversityController::ApplyRandomPerturbation`: kick `N/100` randomly
chosen neurons, and with probability `0.1` multiply the chosen neuron's
luminosity by a random factor in `[2, 5]`. -/
def ApplyRandomPerturbation (R : DivRand) (Neurons : List FNeuronState) :
    List FNeuronState :=
  let N := Neurons.length
  (List.range (N / 100)).foldl (fun ns k =>
    let RandomIndex := R.perturbIdx k
    let ns2 := listUpdate ns RandomIndex (fun n =>
      { n with Velocity := n.Velocity + R.perturbKick k })
    if R.perturbRoll k < 1/10 then
      listUpdate ns2 RandomIndex (fun n =>
        { n with Luminosity := n.Luminosity * R.perturbMul k })
    else ns2) Neurons

/-- `FDiversityController::UpdateSystemDynamics`: thermal noise, lateral
inhibition, diversity pressure, perturbation every 100th iteration, then the
temperature cools by `0.995` with floor `10`.  Returns the updated neuron
array and the updated controller temperature. -/
def UpdateSystemDynamics (R : DivRand) (Clusters : List (List Nat))
    (SystemTemperature DeltaTime : ℚ) (IterationCount : Int)
    (Neurons : List FNeuronState) : List FNeuronState × ℚ :=
  let ns1 := ApplyThermalNoise R SystemTemperature DeltaTime Neurons
  let ns2 := ApplyLateralInhibition R ns1
  let ns3 := ApplyDiversityPressure Clusters ns2
  let ns4 := if IterationCount % 100 = 0 then ApplyRandomPerturbation R ns3 else ns3
  (ns4, max (SystemTemperature * (995/1000)) 10)

def SPEED_OF_LIGHT : ℚ := 299792458

/-- The fields of `Photon` that `updatePhotonPropagation` reads or writes. -/
structure Photon where
  position : Vec3
  direction : Vec3
  intensity : ℚ
  active : Bool
deriving DecidableEq, Repr

instance : Inhabited Photon := ⟨⟨(0, 0, 0), (0, 0, 0), 1, true⟩⟩

/-- `NEBULAEmergentGalaxy::updatePhotonPropagation`: active photons advance
by `direction * c * dt`, are attenuated by `0.9` per neuron whose
interaction radius (`mass * 10`) they are inside (stopping — `break` — once
intensity drops below `0.1`), and are deactivated beyond travel radius
`10000`; if fewer than `numPhotons / 2` remain active, each inactive photon
is re-emitted with probability `0.1` from a random neuron (`roll k` /
`draw k` are photon `k`'s random draws; with zero neurons the C++ re-emission
would compute `rng() % 0` — undefined behavior — which this total model
renders harmless; the claim below only concerns the zero-photon case, where
the re-emission loop has nothing to iterate). -/
def updatePhotonPropagation (sqrtQ : ℚ → ℚ) (roll : Nat → ℚ) (draw : Nat → Nat)
    (neurons : List GNeuron) (numPhotons : Int) (deltaTime : ℚ)
    (photons : List Photon) : List Photon :=
  let moved := photons.map (fun photon =>
    if !photon.active then photon
    else
      let p1 := { photon with
        position := photon.position + (SPEED_OF_LIGHT * deltaTime) • photon.direction }
      let p2 := (neurons.foldl (fun (st : Photon × Bool) neuron =>
        if st.2 then st
        else
          let distance := sqrtQ (normSq (st.1.position - neuron.position))
          if distance < neuron.mass * 10 then
            let pa : Photon := { st.1 with intensity := st.1.intensity * (9/10) }
            if pa.intensity < 1/10 then ({ pa with active := false }, true)
            else (pa, false)
          else st) ((p1, false) : Photon × Bool)).1
      if 10000 < sqrtQ (normSq p2.position) then { p2 with active := false } else p2)
  let activePhotons := moved.countP (fun p => p.active)
  if (activePhotons : Int) < Int.tdiv numPhotons 2 then
    enumMap (fun k p =>
      if !p.active ∧ roll k < 1/10 then
        let src := neurons.getD (draw k % neurons.length) default
        { p with position := src.position, active := true, intensity := src.luminosity }
      else p) moved
  else moved

/-! ## Generic loop-accumulation lemmas -/

theorem foldl_count {α : Type} (p : α → Prop) [DecidablePred p] (l : List α)
    (init : Int) :
    l.foldl (fun m a => if p a then m + 1 else m) init =
      init + (l.countP (fun a => decide (p a)) : Int) := by
  induction l generalizing init with
  | nil => simp
  | cons a rest ih =>
      rw [List.foldl_cons, ih, List.countP_cons]
      by_cases h : p a <;> simp [h] <;> push_cast <;> ring

theorem foldl_add_sum {α M : Type} [AddCommMonoid M] (f : α → M) (l : List α)
    (init : M) :
    l.foldl (fun s a => s + f a) init = init + (l.map f).sum := by
  induction l generalizing init with
  | nil => simp
  | cons a rest ih => rw [List.foldl_cons, ih, List.map_cons, List.sum_cons, add_assoc]

theorem foldl_flatMap {α β γ : Type} (f : β → γ → β) (g : α → List γ)
    (l : List α) (i : β) :
    (l.flatMap g).foldl f i = l.foldl (fun acc a => (g a).foldl f acc) i := by
  induction l generalizing i with
  | nil => rfl
  | cons a rest ih => rw [List.flatMap_cons, List.foldl_append, List.foldl_cons, ih]

theorem foldl_invariant {α β : Type} (P : β → Prop) (f : β → α → β) (l : List α)
    (i : β) (hi : P i) (hstep : ∀ b a, a ∈ l → P b → P (f b a)) :
    P (l.foldl f i) := by
  induction l generalizing i with
  | nil => exact hi
  | cons a rest ih =>
      rw [List.foldl_cons]
      exact ih _ (hstep i a (by simp) hi) (fun b x hx hb => hstep b x (by simp [hx]) hb)

/-! ## C1: the validity oracle returns the mean match ratio over the
training examples -/

/-- The row-major list of all in-bounds cell coordinates of a `w × h` grid. -/
def cellCoords (w h : Int) : List (Int × Int) :=
  (List.range h.toNat).flatMap (fun (yn : Nat) =>
    (List.range w.toNat).map (fun (xn : Nat) => ((xn : Int), (yn : Int))))

/-- The claim's per-example match ratio, written independently of
`CalculateGridSimilarity`: `0` when the dimensions differ, otherwise the
number of agreeing cells over the total number of cells. -/
def specMatchFrac (A B : ARCGrid) : ℚ :=
  if A.width = B.width ∧ A.height = B.height then
    ((cellCoords A.width A.height).countP
        (fun p => decide (A.getCell p.1 p.2 = B.getCell p.1 p.2)) : ℚ) /
      ((A.width * A.height : Int) : ℚ)
  else 0

theorem CalculateGridSimilarity_eq_specMatchFrac (A B : ARCGrid) :
    CalculateGridSimilarity A B = specMatchFrac A B := by
  unfold CalculateGridSimilarity specMatchFrac
  by_cases hdim : A.width = B.width ∧ A.height = B.height
  · rw [if_neg (by omega), if_pos hdim]
    congr 1
    have hrows : ∀ (rows : List Nat) (init : Int),
        rows.foldl (fun (m : Int) (yn : Nat) =>
          (List.range A.width.toNat).foldl (fun (m2 : Int) (xn : Nat) =>
            if A.getCell (xn : Int) (yn : Int) = B.getCell (xn : Int) (yn : Int) then
              m2 + 1
            else m2) m) init =
        init + ((rows.flatMap (fun (yn : Nat) =>
          (List.range A.width.toNat).map (fun (xn : Nat) =>
            ((xn : Int), (yn : Int))))).countP
            (fun p => decide (A.getCell p.1 p.2 = B.getCell p.1 p.2)) : Int) := by
      intro rows
      induction rows with
      | nil => intro init; simp
      | cons yn rest ih =>
          intro init
          rw [List.foldl_cons, ih, List.flatMap_cons, List.countP_append]
          rw [foldl_count (fun xn : Nat =>
            A.getCell (xn : Int) (yn : Int) = B.getCell (xn : Int) (yn : Int))]
          rw [List.countP_map]
          simp only [Function.comp_def]
          push_cast
          ring
    show ((List.foldl _ 0 _ : Int) : ℚ) / _ = _
    rw [hrows (List.range A.height.toNat) 0, zero_add]
    rfl
  · rw [if_pos (by omega), if_neg hdim]

/-- C1: for every cluster and non-empty training list,
`EvaluatePatternValidity` equals the arithmetic mean over the training
examples of the per-example match ratio between the cluster-transformed
training input and the matching training output (`0` on dimension
mismatch).  The score is a function of the cluster and the training
examples alone — no test or target grid is among its inputs (see the
signature of `EvaluatePatternValidity`). -/
theorem C1_oracle_mean_match_ratio {T : Type}
    (extractTransformation : FNeuronCluster → T)
    (applyClusterTransform : ARCGrid → T → ARCGrid)
    (Cluster : FNeuronCluster) (TrainingExamples : List FARCExample)
    (hne : TrainingExamples ≠ []) :
    EvaluatePatternValidity extractTransformation applyClusterTransform
        Cluster TrainingExamples =
      (TrainingExamples.map (fun e =>
        specMatchFrac
          (applyClusterTransform e.Input (extractTransformation Cluster))
          e.Output)).sum / (TrainingExamples.length : ℚ) := by
  simp only [EvaluatePatternValidity]
  rw [foldl_add_sum, zero_add]
  congr 1
  congr 1
  apply List.map_congr_left
  intro e _
  exact CalculateGridSimilarity_eq_specMatchFrac _ _

/-- The 3×3 grids of the spec's concrete color-change scenario. -/
def gridIn33 : ARCGrid := (mkGrid 3 3).setCell 1 1 1

def gridOut33 : ARCGrid := (mkGrid 3 3).setCell 1 1 2

/-- Witness for C1 at a concrete cluster, transform and training list. -/
theorem C1_oracle_mean_match_ratio_witness :
    ([(⟨gridIn33, gridOut33⟩ : FARCExample)] ≠ []) ∧
      EvaluatePatternValidity (fun _ : FNeuronCluster => ()) (fun g _ => g)
        ⟨[]⟩ [⟨gridIn33, gridOut33⟩] =
      (([(⟨gridIn33, gridOut33⟩ : FARCExample)]).map (fun e =>
        specMatchFrac e.Input e.Output)).sum /
        (([(⟨gridIn33, gridOut33⟩ : FARCExample)]).length : ℚ) :=
  ⟨by simp,
   C1_oracle_mean_match_ratio (fun _ => ()) (fun g _ => g) ⟨[]⟩
     [⟨gridIn33, gridOut33⟩] (by simp)⟩

/-! ## C8: empty collections degrade to no-ops -/

/-- C8: with zero training examples the vote map is empty, so rule
discovery yields the `"copy"` rule and `solveTransformation` returns the
test input unchanged (hence cell-for-cell equal); the validity oracle on an
empty training list returns `0` (the C++ float computes `0.0/0`, a quiet
`NaN`, not an error); and the dynamics updates on zero neurons or zero
photons return the empty state unchanged. -/
theorem C8_empty_collections :
    dominantRule (transformationVotes [] []) = "copy" ∧
    (∀ t : ARCGrid, solveTransformation [] [] t = t) ∧
    (∀ (T : Type) (extractTransformation : FNeuronCluster → T)
        (applyClusterTransform : ARCGrid → T → ARCGrid) (c : FNeuronCluster),
      EvaluatePatternValidity extractTransformation applyClusterTransform c [] = 0) ∧
    (∀ (sqrtQ : ℚ → ℚ) (draw : Nat → Nat → Nat) (dt : ℚ),
      updateNeuronDynamics sqrtQ draw dt [] = []) ∧
    (∀ (sqrtQ : ℚ → ℚ) (roll : Nat → ℚ) (draw : Nat → Nat)
        (neurons : List GNeuron) (numPhotons : Int) (dt : ℚ),
      updatePhotonPropagation sqrtQ roll draw neurons numPhotons dt [] = []) := by
  refine ⟨rfl, fun t => rfl, fun T e a c => by simp [EvaluatePatternValidity],
    fun s d dt => rfl, fun s r d n np dt => ?_⟩
  show (if ((0 : Int) < Int.tdiv np 2) then _ else _) = ([] : List Photon)
  split
  · rfl
  · rfl

/-! ## C10: the Rotation rule is a fixed quarter turn -/

/-- `applyRotation` as an explicit write sequence into the
`(Height, Width)`-dimensioned fresh grid. -/
def rotationWrites (Input : ARCGrid) : List ((Int × Int) × Int) :=
  (List.range Input.height.toNat).flatMap (fun (yn : Nat) =>
    (List.range Input.width.toNat).map (fun (xn : Nat) =>
      ((Input.height - 1 - (yn : Int), (xn : Int)),
        Input.getCell (xn : Int) (yn : Int))))

theorem applyRotation_eq_applyWrites (Input : ARCGrid) :
    applyRotation Input =
      applyWrites (mkGrid Input.height Input.width) (rotationWrites Input) := by
  unfold applyRotation rotationWrites applyWrites
  rw [foldl_flatMap]
  congr 1
  funext out yn
  rw [List.foldl_map]

/-- `lastWrite` along one constant-column write list. -/
theorem lastWrite_column (c : Int) (w : Nat) (v : Nat → Int) (x y : Int) :
    lastWrite ((List.range w).map (fun (k : Nat) => ((c, (k : Int)), v k))) x y =
      if x = c ∧ 0 ≤ y ∧ y < (w : Int) then some (v y.toNat) else none := by
  induction w with
  | zero =>
      rw [if_neg (by omega)]
      rfl
  | succ n ih =>
      rw [List.range_succ, List.map_append, lastWrite_append]
      simp only [List.map_cons, List.map_nil]
      rw [show lastWrite [((c, (n : Int)), v n)] x y =
        (if c = x ∧ (n : Int) = y then some (v n) else none) from rfl]
      by_cases h : c = x ∧ (n : Int) = y
      · rw [if_pos h]
        have : x = c ∧ 0 ≤ y ∧ y < ((n + 1 : Nat) : Int) := by omega
        rw [if_pos this]
        have : y.toNat = n := by omega
        rw [this]
      · rw [if_neg h, ih]
        by_cases h2 : x = c ∧ 0 ≤ y ∧ y < (n : Int)
        · rw [if_pos h2, if_pos (by omega)]
        · rw [if_neg h2, if_neg (by omega)]

/-- `lastWrite` over the initial `m` rows of the rotation write sequence. -/
theorem lastWrite_rotationWrites_aux (Input : ARCGrid) (m : Nat)
    (hm : (m : Int) ≤ Input.height) (x y : Int) :
    lastWrite ((List.range m).flatMap (fun (yn : Nat) =>
      (List.range Input.width.toNat).map (fun (xn : Nat) =>
        ((Input.height - 1 - (yn : Int), (xn : Int)),
          Input.getCell (xn : Int) (yn : Int))))) x y =
      if Input.height - (m : Int) ≤ x ∧ x < Input.height ∧
          0 ≤ y ∧ y < (Input.width.toNat : Int) then
        some (Input.getCell y ((Input.height - 1 - x).toNat : Int))
      else none := by
  induction m with
  | zero => rw [if_neg (by omega)]; rfl
  | succ n ih =>
      rw [List.range_succ, List.flatMap_append, lastWrite_append]
      simp only [List.flatMap_cons, List.flatMap_nil, List.append_nil]
      rw [lastWrite_column (Input.height - 1 - (n : Int)) Input.width.toNat
        (fun (xn : Nat) => Input.getCell (xn : Int) ((n : Nat) : Int)) x y]
      by_cases h : x = Input.height - 1 - (n : Int) ∧ 0 ≤ y ∧ y < (Input.width.toNat : Int)
      · rw [if_pos h, if_pos (by omega)]
        have h1 : Input.height - 1 - x = (n : Int) := by omega
        rw [h1]
        have h2 : ((y.toNat : Nat) : Int) = y := by omega
        have h3 : ((n : Int)).toNat = n := by omega
        rw [h2, h3]
      · rw [if_neg h, ih (by omega)]
        by_cases h2 : Input.height - (n : Int) ≤ x ∧ x < Input.height ∧
            0 ≤ y ∧ y < (Input.width.toNat : Int)
        · rw [if_pos h2, if_pos (by omega)]
        · rw [if_neg h2, if_neg (by omega)]

/-- C10: applying a Rotation-typed `FTransformationRule` to a `W × H` input
yields an `H × W` grid whose cell at column `Height - 1 - y`, row `x` holds
the input cell `(x, y)` — a fixed quarter turn, for EVERY value of the
rotation angle stored in the rule's `SpatialTransform`. -/
theorem C10_rotation_quarter_turn (Rule : FTransformationRule)
    (ht : Rule.ttype = ETransformationType.Rotation) (Input : ARCGrid)
    (x y : Int) (hx0 : 0 ≤ x) (hxw : x < Input.width)
    (hy0 : 0 ≤ y) (hyh : y < Input.height) :
    (Rule.Apply Input).width = Input.height ∧
      (Rule.Apply Input).height = Input.width ∧
      (Rule.Apply Input).getCell (Input.height - 1 - y) x =
        Input.getCell x y := by
  have happ : Rule.Apply Input = applyRotation Input := by
    unfold FTransformationRule.Apply
    rw [ht]
  rw [happ, applyRotation_eq_applyWrites]
  have hwf : (mkGrid Input.height Input.width).Wf :=
    mkGrid_wf _ _ (by omega) (by omega)
  refine ⟨by simp [applyWrites_width, mkGrid], by simp [applyWrites_height, mkGrid], ?_⟩
  rw [getCell_applyWrites _ _ hwf]
  have hin : (mkGrid Input.height Input.width).inBounds (Input.height - 1 - y) x := by
    unfold ARCGrid.inBounds mkGrid
    dsimp only
    omega
  rw [if_pos hin]
  unfold rotationWrites
  rw [lastWrite_rotationWrites_aux Input Input.height.toNat (by omega)]
  rw [if_pos (by omega)]
  have h1 : (Input.height - 1 - (Input.height - 1 - y)).toNat = y.toNat := by omega
  rw [h1]
  have h2 : ((y.toNat : Nat) : Int) = y := by omega
  rw [h2]

/-- Witness for C10: a concrete Rotation rule (with a nonzero stored angle)
applied to a concrete 2×1 grid. -/
theorem C10_rotation_quarter_turn_witness :
    ((⟨ETransformationType.Rotation, ⟨0, 0, 7, 0⟩, [], none, 1⟩ :
        FTransformationRule).ttype = ETransformationType.Rotation) ∧
      (((⟨ETransformationType.Rotation, ⟨0, 0, 7, 0⟩, [], none, 1⟩ :
        FTransformationRule).Apply ((mkGrid 2 1).setCell 1 0 5)).width =
          ((mkGrid 2 1).setCell 1 0 5).height ∧
        ((⟨ETransformationType.Rotation, ⟨0, 0, 7, 0⟩, [], none, 1⟩ :
          FTransformationRule).Apply ((mkGrid 2 1).setCell 1 0 5)).height =
          ((mkGrid 2 1).setCell 1 0 5).width ∧
        ((⟨ETransformationType.Rotation, ⟨0, 0, 7, 0⟩, [], none, 1⟩ :
          FTransformationRule).Apply ((mkGrid 2 1).setCell 1 0 5)).getCell
            (((mkGrid 2 1).setCell 1 0 5).height - 1 - 0) 1 =
          ((mkGrid 2 1).setCell 1 0 5).getCell 1 0) :=
  ⟨rfl,
   C10_rotation_quarter_turn _ rfl ((mkGrid 2 1).setCell 1 0 5) 1 0
     (by decide) (by decide) (by decide) (by decide)⟩

/-! ## C2: cross-example validation sets confidences, filters, sorts -/

/-- `Apply` never reads the `Confidence` field. -/
theorem Apply_confidence_irrelevant (r : FTransformationRule) (c : ℚ) (g : ARCGrid) :
    FTransformationRule.Apply { r with Confidence := c } g = r.Apply g := by
  cases r
  rfl

/-- C2: after `ValidateRulesAcrossExamples` on a non-empty training list,
every surviving rule's confidence equals the fraction of training examples
its `Apply` reproduces exactly (cell-for-cell, per `GridsMatch`), no
surviving rule has confidence below `1/2`, and the surviving rules are
sorted by confidence in descending order. -/
theorem C2_validate_rules (Rules : List FTransformationRule)
    (Examples : List FARCExample) (hne : Examples ≠ []) :
    (∀ r ∈ ValidateRulesAcrossExamples Rules Examples,
        r.Confidence =
          ((Examples.countP (fun e => GridsMatch (r.Apply e.Input) e.Output) : ℚ) /
            (Examples.length : ℚ))) ∧
      (∀ r ∈ ValidateRulesAcrossExamples Rules Examples, 1/2 ≤ r.Confidence) ∧
      List.Sorted (· ≥ ·)
        ((ValidateRulesAcrossExamples Rules Examples).map
          (fun r => r.Confidence)) := by
  have hmem : ∀ r ∈ ValidateRulesAcrossExamples Rules Examples,
      (∃ r0 ∈ Rules,
        r = { r0 with Confidence :=
          ((Examples.countP
            (fun e => GridsMatch (r0.Apply e.Input) e.Output) : ℚ) /
            (Examples.length : ℚ)) }) ∧
      ¬ (r.Confidence < 1/2) := by
    intro r hr
    unfold ValidateRulesAcrossExamples at hr
    rw [List.mem_mergeSort, List.mem_filter] at hr
    obtain ⟨hr1, hr2⟩ := hr
    rw [List.mem_map] at hr1
    obtain ⟨r0, hr0, hr0eq⟩ := hr1
    refine ⟨⟨r0, hr0, hr0eq.symm⟩, ?_⟩
    simpa using hr2
  have hcount : ∀ (r0 : FTransformationRule) (c : ℚ),
      Examples.countP (fun e =>
        GridsMatch ((({ r0 with Confidence := c } : FTransformationRule)).Apply
          e.Input) e.Output) =
      Examples.countP (fun e => GridsMatch (r0.Apply e.Input) e.Output) := by
    intro r0 c
    congr 1
  refine ⟨?_, ?_, ?_⟩
  · intro r hr
    obtain ⟨⟨r0, _, hr0eq⟩, _⟩ := hmem r hr
    subst hr0eq
    rw [hcount r0
      (((Examples.countP (fun e => GridsMatch (r0.Apply e.Input) e.Output) : ℚ)) /
        (Examples.length : ℚ))]
  · intro r hr
    have := (hmem r hr).2
    linarith [not_lt.mp this]
  · have hpair :
        (ValidateRulesAcrossExamples Rules Examples).Pairwise
          (fun A B => decide (B.Confidence ≤ A.Confidence) = true) := by
      unfold ValidateRulesAcrossExamples
      apply List.sorted_mergeSort
      · intro a b c hab hbc
        simp only [decide_eq_true_eq] at *
        exact le_trans hbc hab
      · intro a b
        simp only [Bool.or_eq_true, decide_eq_true_eq]
        exact le_total b.Confidence a.Confidence
    unfold List.Sorted
    refine List.Pairwise.map _ ?_ hpair
    intro a b hab
    simp only [decide_eq_true_eq] at hab
    exact hab

/-- Witness for C2 at a concrete rule list and training list. -/
theorem C2_validate_rules_witness :
    ([(⟨gridIn33, gridOut33⟩ : FARCExample)] ≠ []) ∧
      ((∀ r ∈ ValidateRulesAcrossExamples
            [⟨ETransformationType.ColorMapping, default, [(1, 2)], none, 7/10⟩]
            [⟨gridIn33, gridOut33⟩],
          r.Confidence =
            ((([(⟨gridIn33, gridOut33⟩ : FARCExample)]).countP
              (fun e => GridsMatch (r.Apply e.Input) e.Output) : ℚ) /
              (([(⟨gridIn33, gridOut33⟩ : FARCExample)]).length : ℚ))) ∧
        (∀ r ∈ ValidateRulesAcrossExamples
            [⟨ETransformationType.ColorMapping, default, [(1, 2)], none, 7/10⟩]
            [⟨gridIn33, gridOut33⟩], 1/2 ≤ r.Confidence) ∧
        List.Sorted (· ≥ ·)
          ((ValidateRulesAcrossExamples
            [⟨ETransformationType.ColorMapping, default, [(1, 2)], none, 7/10⟩]
            [⟨gridIn33, gridOut33⟩]).map (fun r => r.Confidence))) :=
  ⟨by simp,
   C2_validate_rules
     [⟨ETransformationType.ColorMapping, default, [(1, 2)], none, 7/10⟩]
     [⟨gridIn33, gridOut33⟩] (by simp)⟩

/-! ## Pattern detector classification lemmas (for C5 and C7) -/

theorem mem_detectRectangles (g : ARCGrid) (p : Pattern)
    (hp : p ∈ detectRectangles g) :
    p.type = "rectangle" ∧ p.confidence = 4/5 := by
  simp only [detectRectangles, List.mem_flatMap] at hp
  obtain ⟨c, _, hp⟩ := hp
  split at hp
  · rw [List.mem_filterMap] at hp
    obtain ⟨pq, _, heq⟩ := hp
    split at heq
    · split at heq
      · have := Option.some.inj heq
        subst this
        exact ⟨rfl, rfl⟩
      · exact absurd heq (by simp)
    · exact absurd heq (by simp)
  · exact absurd hp (by simp)

theorem mem_detectLinesRow (g : ARCGrid) (y : Int) (p : Pattern)
    (hp : p ∈ detectLinesRow g y) :
    p.type = "horizontal_line" ∧ p.confidence = 7/10 := by
  unfold detectLinesRow at hp
  refine foldl_invariant
    (fun (st : Int × Int × List Pattern) =>
      ∀ q ∈ st.2.2, q.type = "horizontal_line" ∧ q.confidence = 7/10)
    _ _ (-1, -1, []) (by simp) ?_ p hp
  intro st xn _ hst q hq
  dsimp only at hq
  split at hq <;> split at hq <;>
    first
      | exact hst q hq
      | (dsimp only at hq
         split at hq
         · rw [List.mem_append] at hq
           rcases hq with hq | hq
           · exact hst q hq
           · rw [List.mem_singleton] at hq
             subst hq
             exact ⟨rfl, rfl⟩
         · exact hst q hq)

theorem mem_detectLinesCol (g : ARCGrid) (x : Int) (p : Pattern)
    (hp : p ∈ detectLinesCol g x) :
    p.type = "vertical_line" ∧ p.confidence = 7/10 := by
  unfold detectLinesCol at hp
  refine foldl_invariant
    (fun (st : Int × Int × List Pattern) =>
      ∀ q ∈ st.2.2, q.type = "vertical_line" ∧ q.confidence = 7/10)
    _ _ (-1, -1, []) (by simp) ?_ p hp
  intro st yn _ hst q hq
  dsimp only at hq
  split at hq <;> split at hq <;>
    first
      | exact hst q hq
      | (dsimp only at hq
         split at hq
         · rw [List.mem_append] at hq
           rcases hq with hq | hq
           · exact hst q hq
           · rw [List.mem_singleton] at hq
             subst hq
             exact ⟨rfl, rfl⟩
         · exact hst q hq)

theorem mem_detectLines (g : ARCGrid) (p : Pattern) (hp : p ∈ detectLines g) :
    (p.type = "horizontal_line" ∨ p.type = "vertical_line") ∧
      p.confidence = 7/10 := by
  unfold detectLines at hp
  rw [List.mem_append] at hp
  rcases hp with hp | hp
  · rw [List.mem_flatMap] at hp
    obtain ⟨yn, _, hp⟩ := hp
    obtain ⟨h1, h2⟩ := mem_detectLinesRow g (yn : Int) p hp
    exact ⟨Or.inl h1, h2⟩
  · rw [List.mem_flatMap] at hp
    obtain ⟨xn, _, hp⟩ := hp
    obtain ⟨h1, h2⟩ := mem_detectLinesCol g (xn : Int) p hp
    exact ⟨Or.inr h1, h2⟩

theorem mem_detectSymmetries (g : ARCGrid) (p : Pattern)
    (hp : p ∈ detectSymmetries g) :
    (p = ⟨"horizontal_symmetry", [], 0, 9/10⟩ ∧ horizontalSymmetryCheck g = true) ∨
      (p = ⟨"vertical_symmetry", [], 0, 9/10⟩ ∧ verticalSymmetryCheck g = true) := by
  unfold detectSymmetries at hp
  rw [List.mem_append] at hp
  rcases hp with hp | hp
  · split at hp
    · rw [List.mem_singleton] at hp
      exact Or.inl ⟨hp, by assumption⟩
    · exact absurd hp (by simp)
  · split at hp
    · rw [List.mem_singleton] at hp
      exact Or.inr ⟨hp, by assumption⟩
    · exact absurd hp (by simp)

theorem mem_detectRepetitions (g : ARCGrid) (p : Pattern)
    (hp : p ∈ detectRepetitions g) :
    (∃ s, p.type = "repetition_" ++ s) ∧
      ∃ k : Nat, 2 ≤ k ∧ p.confidence = 3/5 + (k : ℚ)/10 := by
  simp only [detectRepetitions, List.mem_flatMap, List.mem_map] at hp
  obtain ⟨bs, _, hp⟩ := hp
  rw [List.mem_filterMap] at hp
  obtain ⟨group, hgroup, heq⟩ := hp
  split at heq
  · have := Option.some.inj heq
    subst this
    refine ⟨⟨_, rfl⟩, group.2.length, by assumption, rfl⟩
  · exact absurd heq (by simp)

theorem repetition_type_ne_horizontal_symmetry (s : String) :
    "repetition_" ++ s ≠ "horizontal_symmetry" := by
  intro h
  have h2 : ("repetition_" ++ s).data.head? = some 'r' := rfl
  rw [h] at h2
  exact absurd h2 (by decide)

/-! ## C5: horizontal symmetry detection -/

/-- A grid is a perfect horizontal mirror of itself: every in-bounds cell
equals its horizontal mirror image. -/
def isHorizontalMirror (g : ARCGrid) : Prop :=
  ∀ x y : Int, g.inBounds x y → g.getCell x y = g.getCell (g.width - 1 - x) y

theorem horizontalSymmetryCheck_iff (g : ARCGrid) :
    horizontalSymmetryCheck g = true ↔ isHorizontalMirror g := by
  unfold horizontalSymmetryCheck isHorizontalMirror
  simp only [List.all_eq_true, List.mem_range, beq_iff_eq]
  constructor
  · intro h x y hin
    obtain ⟨hx0, hxw, hy0, hyh⟩ := hin
    by_cases hhalf : x.toNat < g.width.toNat / 2
    · have hxy := h y.toNat (by omega) x.toNat hhalf
      have e1 : ((x.toNat : Nat) : Int) = x := by omega
      have e2 : ((y.toNat : Nat) : Int) = y := by omega
      rw [e1, e2] at hxy
      exact hxy
    · by_cases hmid : g.width - 1 - x = x
      · rw [hmid]
      · have hx2 : (g.width - 1 - x).toNat < g.width.toNat / 2 := by omega
        have hxy := h y.toNat (by omega) (g.width - 1 - x).toNat hx2
        have e1 : (((g.width - 1 - x).toNat : Nat) : Int) = g.width - 1 - x := by
          omega
        have e2 : ((y.toNat : Nat) : Int) = y := by omega
        rw [e1, e2] at hxy
        have e3 : g.width - 1 - (g.width - 1 - x) = x := by omega
        rw [e3] at hxy
        exact hxy.symm
  · intro h yn hyn xn hxn
    have hin : g.inBounds (xn : Int) (yn : Int) := by
      unfold ARCGrid.inBounds
      omega
    exact h (xn : Int) (yn : Int) hin

theorem hs_pattern_mem (g : ARCGrid) (hcheck : horizontalSymmetryCheck g = true) :
    (⟨"horizontal_symmetry", [], 0, 9/10⟩ : Pattern) ∈ detectPatterns g := by
  unfold detectPatterns detectSymmetries
  rw [hcheck]
  simp

/-- C5: `detectPatterns` reports a `horizontal_symmetry` pattern with
confidence `≥ 0.9` exactly when the grid is a perfect horizontal mirror of
itself; on a grid that is not, no returned pattern has that type. -/
theorem C5_horizontal_symmetry (g : ARCGrid) :
    (isHorizontalMirror g →
      ∃ p ∈ detectPatterns g,
        p.type = "horizontal_symmetry" ∧ (9/10 : ℚ) ≤ p.confidence) ∧
    (¬ isHorizontalMirror g →
      ∀ p ∈ detectPatterns g, p.type ≠ "horizontal_symmetry") := by
  constructor
  · intro hm
    exact ⟨⟨"horizontal_symmetry", [], 0, 9/10⟩,
      hs_pattern_mem g ((horizontalSymmetryCheck_iff g).mpr hm), rfl, le_refl _⟩
  · intro hm p hp hptype
    unfold detectPatterns at hp
    rw [List.mem_append, List.mem_append, List.mem_append] at hp
    rcases hp with ((hp | hp) | hp) | hp
    · have := (mem_detectRectangles g p hp).1
      rw [hptype] at this
      exact absurd this (by decide)
    · rcases (mem_detectLines g p hp).1 with h1 | h1 <;> rw [hptype] at h1 <;>
        exact absurd h1 (by decide)
    · rcases mem_detectSymmetries g p hp with ⟨hpe, hchk⟩ | ⟨hpe, _⟩
      · exact hm ((horizontalSymmetryCheck_iff g).mp hchk)
      · subst hpe
        exact absurd hptype (by decide)
    · obtain ⟨⟨s, hs⟩, _⟩ := mem_detectRepetitions g p hp
      rw [hptype] at hs
      exact repetition_type_ne_horizontal_symmetry s hs.symm

/-- Witness for C5: a mirror-symmetric grid produces the pattern; a
non-symmetric grid produces none. -/
theorem C5_horizontal_symmetry_witness :
    (∃ p ∈ detectPatterns (mkGrid 2 2),
        p.type = "horizontal_symmetry" ∧ (9/10 : ℚ) ≤ p.confidence) ∧
      (∀ p ∈ detectPatterns ((mkGrid 2 1).setCell 0 0 1),
        p.type ≠ "horizontal_symmetry") :=
  ⟨(C5_horizontal_symmetry (mkGrid 2 2)).1
      ((horizontalSymmetryCheck_iff (mkGrid 2 2)).mp (by decide)),
   (C5_horizontal_symmetry ((mkGrid 2 1).setCell 0 0 1)).2
      (fun hm =>
        absurd ((horizontalSymmetryCheck_iff ((mkGrid 2 1).setCell 0 0 1)).mpr hm)
          (by decide))⟩

/-! ## C7: pattern confidences -/

/-- C7 (amended): every pattern returned by `detectPatterns` has
non-negative confidence, and every pattern whose confidence exceeds `1` is
a repetition pattern (`confidence = 0.6 + 0.1 × occurrences`, which exceeds
`1` as soon as a block value occurs more than four times).  Rectangle, line
and symmetry patterns all have confidence in `[0, 1]`. -/
theorem C7_confidence_bounds (g : ARCGrid) (p : Pattern)
    (hp : p ∈ detectPatterns g) :
    0 ≤ p.confidence ∧
      (p.confidence ≤ 1 ∨ ∃ s, p.type = "repetition_" ++ s) := by
  unfold detectPatterns at hp
  rw [List.mem_append, List.mem_append, List.mem_append] at hp
  rcases hp with ((hp | hp) | hp) | hp
  · obtain ⟨_, hc⟩ := mem_detectRectangles g p hp
    rw [hc]
    exact ⟨by norm_num, Or.inl (by norm_num)⟩
  · obtain ⟨_, hc⟩ := mem_detectLines g p hp
    rw [hc]
    exact ⟨by norm_num, Or.inl (by norm_num)⟩
  · rcases mem_detectSymmetries g p hp with ⟨hpe, _⟩ | ⟨hpe, _⟩ <;> subst hpe <;>
      exact ⟨by norm_num, Or.inl (by norm_num)⟩
  · obtain ⟨hs, k, hk2, hconf⟩ := mem_detectRepetitions g p hp
    rw [hconf]
    refine ⟨by positivity, Or.inr hs⟩

/-- Counterexample for C7 as stated: on the all-zero 4×4 grid the repetition
detector groups nine identical 2×2 blocks and reports confidence
`0.6 + 0.9 = 1.5 > 1`, outside `[0, 1]`. -/
theorem C7_confidence_counterexample :
    ∃ p ∈ detectPatterns (mkGrid 4 4), 1 < p.confidence := by
  have hlen : 2 < (detectPatterns (mkGrid 4 4)).length := by decide
  refine ⟨(detectPatterns (mkGrid 4 4)).get ⟨2, hlen⟩, List.get_mem _ _ _, ?_⟩
  have hc : ((detectPatterns (mkGrid 4 4)).get ⟨2, hlen⟩).confidence =
      3/5 + ((9 : Nat) : ℚ)/10 := rfl
  rw [hc]
  norm_num

/-- Witness for C7's amended theorem at a concrete grid and pattern. -/
theorem C7_confidence_bounds_witness :
    (⟨"horizontal_symmetry", [], 0, 9/10⟩ : Pattern) ∈ detectPatterns (mkGrid 1 1) ∧
      (0 ≤ (⟨"horizontal_symmetry", [], 0, 9/10⟩ : Pattern).confidence ∧
        ((⟨"horizontal_symmetry", [], 0, 9/10⟩ : Pattern).confidence ≤ 1 ∨
          ∃ s, (⟨"horizontal_symmetry", [], 0, 9/10⟩ : Pattern).type =
            "repetition_" ++ s)) := by
  have h0 : (detectPatterns (mkGrid 1 1)).get ⟨0, by decide⟩ =
      (⟨"horizontal_symmetry", [], 0, 9/10⟩ : Pattern) := rfl
  have hmem : (⟨"horizontal_symmetry", [], 0, 9/10⟩ : Pattern) ∈
      detectPatterns (mkGrid 1 1) := by
    rw [← h0]
    exact List.get_mem _ _ _
  exact ⟨hmem, C7_confidence_bounds (mkGrid 1 1) _ hmem⟩

/-! ## C4: consistent single-color recolorings -/

/-- `lastWrite` along one constant-row write list. -/
theorem lastWrite_row (r : Int) (w : Nat) (v : Nat → Int) (x y : Int) :
    lastWrite ((List.range w).map (fun (k : Nat) => (((k : Int), r), v k))) x y =
      if y = r ∧ 0 ≤ x ∧ x < (w : Int) then some (v x.toNat) else none := by
  induction w with
  | zero =>
      rw [if_neg (by omega)]
      rfl
  | succ n ih =>
      rw [List.range_succ, List.map_append, lastWrite_append]
      simp only [List.map_cons, List.map_nil]
      rw [show lastWrite [(((n : Int), r), v n)] x y =
        (if (n : Int) = x ∧ r = y then some (v n) else none) from rfl]
      by_cases h : (n : Int) = x ∧ r = y
      · rw [if_pos h, if_pos (by omega)]
        have : x.toNat = n := by omega
        rw [this]
      · rw [if_neg h, ih]
        by_cases h2 : y = r ∧ 0 ≤ x ∧ x < (n : Int)
        · rw [if_pos h2, if_pos (by omega)]
        · rw [if_neg h2, if_neg (by omega)]

/-- `lastWrite` over a full row-major tabulation of `m` rows. -/
theorem lastWrite_tabulate (w : Nat) (m : Nat) (v : Nat → Nat → Int) (x y : Int) :
    lastWrite ((List.range m).flatMap (fun (yn : Nat) =>
      (List.range w).map (fun (xn : Nat) =>
        (((xn : Int), (yn : Int)), v xn yn)))) x y =
      if 0 ≤ x ∧ x < (w : Int) ∧ 0 ≤ y ∧ y < (m : Int) then
        some (v x.toNat y.toNat)
      else none := by
  induction m with
  | zero =>
      rw [if_neg (by omega)]
      rfl
  | succ n ih =>
      rw [List.range_succ, List.flatMap_append, lastWrite_append]
      simp only [List.flatMap_cons, List.flatMap_nil, List.append_nil]
      rw [lastWrite_row (n : Int) w (fun xn => v xn n) x y]
      by_cases h : y = (n : Int) ∧ 0 ≤ x ∧ x < (w : Int)
      · rw [if_pos h, if_pos (by omega)]
        have : y.toNat = n := by omega
        rw [this]
      · rw [if_neg h, ih]
        by_cases h2 : 0 ≤ x ∧ x < (w : Int) ∧ 0 ≤ y ∧ y < (n : Int)
        · rw [if_pos h2, if_pos (by omega)]
        · rw [if_neg h2, if_neg (by omega)]

/-- `applyColorMapping` as an explicit write sequence. -/
def colorMappingWrites (cm : List (Int × Int)) (Input : ARCGrid) :
    List ((Int × Int) × Int) :=
  (List.range Input.height.toNat).flatMap (fun (yn : Nat) =>
    (List.range Input.width.toNat).map (fun (xn : Nat) =>
      (((xn : Int), (yn : Int)),
        match cm.lookup (Input.getCell (xn : Int) (yn : Int)) with
        | some v => v
        | none => Input.getCell (xn : Int) (yn : Int))))

theorem applyColorMapping_eq_applyWrites (cm : List (Int × Int)) (Input : ARCGrid) :
    applyColorMapping cm Input =
      applyWrites (mkGrid Input.width Input.height) (colorMappingWrites cm Input) := by
  unfold applyColorMapping colorMappingWrites applyWrites
  rw [foldl_flatMap]
  congr 1
  funext out yn
  rw [List.foldl_map]

@[simp] theorem applyColorMapping_width (cm : List (Int × Int)) (Input : ARCGrid) :
    (applyColorMapping cm Input).width = Input.width := by
  rw [applyColorMapping_eq_applyWrites, applyWrites_width]
  rfl

@[simp] theorem applyColorMapping_height (cm : List (Int × Int)) (Input : ARCGrid) :
    (applyColorMapping cm Input).height = Input.height := by
  rw [applyColorMapping_eq_applyWrites, applyWrites_height]
  rfl

theorem getCell_applyColorMapping (cm : List (Int × Int)) (Input : ARCGrid)
    (x y : Int) (hin : Input.inBounds x y) :
    (applyColorMapping cm Input).getCell x y =
      (match cm.lookup (Input.getCell x y) with
        | some v => v
        | none => Input.getCell x y) := by
  obtain ⟨hx0, hxw, hy0, hyh⟩ := hin
  rw [applyColorMapping_eq_applyWrites]
  rw [getCell_applyWrites _ _ (mkGrid_wf _ _ (by omega) (by omega))]
  have hin2 : (mkGrid Input.width Input.height).inBounds x y := by
    unfold ARCGrid.inBounds mkGrid
    dsimp only
    omega
  rw [if_pos hin2]
  unfold colorMappingWrites
  rw [lastWrite_tabulate Input.width.toNat Input.height.toNat _ x y,
    if_pos (by omega)]
  have e1 : ((x.toNat : Nat) : Int) = x := by omega
  have e2 : ((y.toNat : Nat) : Int) = y := by omega
  rw [e1, e2]

theorem foldl_congr_mem {α β : Type} (f g : β → α → β) (l : List α) (i : β)
    (h : ∀ b, ∀ a ∈ l, f b a = g b a) : l.foldl f i = l.foldl g i := by
  induction l generalizing i with
  | nil => rfl
  | cons a rest ih =>
      rw [List.foldl_cons, List.foldl_cons, h i a (by simp)]
      exact ih _ (fun b a2 ha2 => h b a2 (by simp [ha2]))

theorem color_row_keep (w : Nat) (c1 c2 : Int) (trigger : Nat → Prop)
    [DecidablePred trigger] (upd : List (Int × Int) → List (Int × Int))
    (hupd1 : upd [(c1, c2)] = [(c1, c2)]) :
    (List.range w).foldl (fun m2 (xn : Nat) =>
      if trigger xn then upd m2 else m2) [(c1, c2)] = [(c1, c2)] := by
  refine foldl_invariant (fun m => m = [(c1, c2)]) _ _ _ rfl ?_
  intro b a _ hb
  subst hb
  split
  · exact hupd1
  · rfl

theorem color_row_fold (w : Nat) (c1 c2 : Int) (trigger : Nat → Prop)
    [DecidablePred trigger] (upd : List (Int × Int) → List (Int × Int))
    (hupd0 : upd [] = [(c1, c2)]) (hupd1 : upd [(c1, c2)] = [(c1, c2)]) :
    (List.range w).foldl (fun m2 (xn : Nat) =>
      if trigger xn then upd m2 else m2) [] =
      if ∃ x < w, trigger x then [(c1, c2)] else [] := by
  induction w with
  | zero =>
      rw [if_neg (by omega)]
      rfl
  | succ n ih =>
      rw [List.range_succ, List.foldl_append, ih]
      by_cases hex : ∃ x < n, trigger x
      · have hex2 : ∃ x < n + 1, trigger x := by
          obtain ⟨x, hx, ht⟩ := hex
          exact ⟨x, by omega, ht⟩
        rw [if_pos hex, if_pos hex2]
        simp only [List.foldl_cons, List.foldl_nil]
        split
        · exact hupd1
        · rfl
      · rw [if_neg hex]
        simp only [List.foldl_cons, List.foldl_nil]
        by_cases ht : trigger n
        · rw [if_pos ht, hupd0, if_pos ⟨n, by omega, ht⟩]
        · rw [if_neg ht, if_neg ?_]
          rintro ⟨x, hx, htx⟩
          rcases Nat.lt_or_ge x n with h2 | h2
          · exact hex ⟨x, h2, htx⟩
          · have hxn : x = n := by omega
            subst hxn
            exact ht htx

/-- A color-scan fold in canonical form: each visited cell either fires
(`trigger`) and applies `upd`, or leaves the map alone.  If `upd` sends
`[]` to `[(c1, c2)]` and fixes `[(c1, c2)]`, the scan of the whole grid
yields `[(c1, c2)]` exactly when some cell fires. -/
theorem canonical_color_fold (w h : Nat) (c1 c2 : Int)
    (trigger : Nat → Nat → Prop) [∀ x y, Decidable (trigger x y)]
    (upd : List (Int × Int) → List (Int × Int))
    (hupd0 : upd [] = [(c1, c2)]) (hupd1 : upd [(c1, c2)] = [(c1, c2)]) :
    (List.range h).foldl (fun m (yn : Nat) =>
      (List.range w).foldl (fun m2 (xn : Nat) =>
        if trigger xn yn then upd m2 else m2) m) [] =
      if ∃ y < h, ∃ x < w, trigger x y then [(c1, c2)] else [] := by
  induction h with
  | zero =>
      rw [if_neg (by omega)]
      rfl
  | succ n ih =>
      rw [List.range_succ, List.foldl_append, ih]
      by_cases hex : ∃ y < n, ∃ x < w, trigger x y
      · have hex2 : ∃ y < n + 1, ∃ x < w, trigger x y := by
          obtain ⟨y, hy, hrest⟩ := hex
          exact ⟨y, by omega, hrest⟩
        rw [if_pos hex, if_pos hex2]
        simp only [List.foldl_cons, List.foldl_nil]
        exact color_row_keep w c1 c2 (fun xn => trigger xn n) upd hupd1
      · rw [if_neg hex]
        simp only [List.foldl_cons, List.foldl_nil]
        rw [color_row_fold w c1 c2 (fun xn => trigger xn n) upd hupd0 hupd1]
        by_cases hr : ∃ x < w, trigger x n
        · rw [if_pos hr, if_pos ⟨n, by omega, hr⟩]
        · rw [if_neg hr, if_neg ?_]
          rintro ⟨y, hy, hx⟩
          rcases Nat.lt_or_ge y n with h2 | h2
          · exact hex ⟨y, h2, hx⟩
          · have hyn : y = n := by omega
            subst hyn
            exact hr hx

/-- The value a color mapping assigns to a cell value (identity when the
mapping has no entry). -/
def mappedColor (colorMapping : List (Int × Int)) (v : Int) : Int :=
  match colorMapping.lookup v with
  | some w => w
  | none => v

theorem colorCellStep_dims_wf (cm : List (Int × Int)) (Y : Nat) (res : ARCGrid)
    (xn : Nat) (h : res.Wf) :
    (colorCellStep cm Y res xn).width = res.width ∧
      (colorCellStep cm Y res xn).height = res.height ∧
      (colorCellStep cm Y res xn).Wf := by
  unfold colorCellStep
  dsimp only
  split
  · exact ⟨setCell_width _ _ _ _, setCell_height _ _ _ _, setCell_wf _ _ _ _ h⟩
  · exact ⟨rfl, rfl, h⟩

/-- Characterization of one row pass of the in-place color rewrite:
cells of other rows keep their value; the first `j` cells of row `Y` get
mapped from THEIR ORIGINAL (`res`) value; the rest of row `Y` is untouched. -/
theorem colorRow_aux (cm : List (Int × Int)) (input res : ARCGrid) (Y : Nat)
    (hw : res.width = input.width) (hh : res.height = input.height)
    (hwfr : res.Wf) (hY : (Y : Int) < input.height) :
    ∀ j : Nat, j ≤ input.width.toNat →
      ((List.range j).foldl (colorCellStep cm Y) res).width = input.width ∧
      ((List.range j).foldl (colorCellStep cm Y) res).height = input.height ∧
      ((List.range j).foldl (colorCellStep cm Y) res).Wf ∧
      (∀ a b : Int, b ≠ (Y : Int) →
        ((List.range j).foldl (colorCellStep cm Y) res).getCell a b =
          res.getCell a b) ∧
      (∀ a : Int, 0 ≤ a → a < (j : Int) →
        ((List.range j).foldl (colorCellStep cm Y) res).getCell a (Y : Int) =
          mappedColor cm (res.getCell a (Y : Int))) ∧
      (∀ a : Int, (j : Int) ≤ a →
        ((List.range j).foldl (colorCellStep cm Y) res).getCell a (Y : Int) =
          res.getCell a (Y : Int)) := by
  intro j
  induction j with
  | zero =>
      intro _
      exact ⟨hw, hh, hwfr, fun a b _ => rfl, fun a h0 hj => by omega, fun a _ => rfl⟩
  | succ n ih =>
      intro hj
      obtain ⟨ihw, ihh, ihwf, ihother, ihdone, ihtodo⟩ := ih (by omega)
      rw [List.range_succ, List.foldl_append]
      simp only [List.foldl_cons, List.foldl_nil]
      set F := (List.range n).foldl (colorCellStep cm Y) res with hF
      have hread : F.getCell (n : Int) (Y : Int) = res.getCell (n : Int) (Y : Int) :=
        ihtodo (n : Int) (by omega)
      have hstep_dims := colorCellStep_dims_wf cm Y F n ihwf
      refine ⟨by rw [hstep_dims.1, ihw], by rw [hstep_dims.2.1, ihh],
        hstep_dims.2.2, ?_, ?_, ?_⟩
      · intro a b hb
        unfold colorCellStep
        dsimp only
        split
        · rw [getCell_setCell_ne _ _ _ _ _ _ (Or.inr hb)]
          exact ihother a b hb
        · exact ihother a b hb
      · intro a ha0 haj
        by_cases han : a = (n : Int)
        · subst han
          unfold colorCellStep
          dsimp only
          split <;> rename_i heq
          · have hin : F.inBounds (n : Int) (Y : Int) := by
              unfold ARCGrid.inBounds
              rw [ihw, ihh]
              omega
            rw [getCell_setCell_self _ _ _ _ ihwf hin]
            unfold mappedColor
            rw [← hread, heq]
          · unfold mappedColor
            rw [← hread, heq]
        · unfold colorCellStep
          dsimp only
          split
          · rw [getCell_setCell_ne _ _ _ _ _ _ (Or.inl han)]
            exact ihdone a ha0 (by omega)
          · exact ihdone a ha0 (by omega)
      · intro a ha
        unfold colorCellStep
        dsimp only
        split
        · rw [getCell_setCell_ne _ _ _ _ _ _ (Or.inl (by omega))]
          exact ihtodo a (by omega)
        · exact ihtodo a (by omega)

/-- Full characterization of the in-place `color_change` rewrite: the
result has the input's dimensions and every in-bounds cell holds the mapped
value of the input cell. -/
theorem applyColorChangeInPlace_spec (cm : List (Int × Int)) (input : ARCGrid)
    (hwf : input.Wf) :
    (applyColorChangeInPlace cm input).width = input.width ∧
      (applyColorChangeInPlace cm input).height = input.height ∧
      ∀ x y : Int, input.inBounds x y →
        (applyColorChangeInPlace cm input).getCell x y =
          mappedColor cm (input.getCell x y) := by
  have hmain : ∀ m : Nat, m ≤ input.height.toNat →
      ((List.range m).foldl (colorRowStep cm input) (copyGrid input)).width =
        input.width ∧
      ((List.range m).foldl (colorRowStep cm input) (copyGrid input)).height =
        input.height ∧
      ((List.range m).foldl (colorRowStep cm input) (copyGrid input)).Wf ∧
      ∀ a b : Int, input.inBounds a b →
        ((List.range m).foldl (colorRowStep cm input) (copyGrid input)).getCell a b =
          (if b < (m : Int) then mappedColor cm (input.getCell a b)
            else input.getCell a b) := by
    intro m
    induction m with
    | zero =>
        intro _
        refine ⟨rfl, rfl, hwf, ?_⟩
        intro a b hin
        rw [if_neg (by obtain ⟨_, _, hb, _⟩ := hin; omega)]
        rfl
    | succ n ih =>
        intro hm
        obtain ⟨ihw, ihh, ihwf, ihcell⟩ := ih (by omega)
        rw [List.range_succ, List.foldl_append]
        simp only [List.foldl_cons, List.foldl_nil]
        set F := (List.range n).foldl (colorRowStep cm input) (copyGrid input)
          with hF
        have hrow := colorRow_aux cm input F n ihw ihh ihwf
          (by omega) input.width.toNat (le_refl _)
        obtain ⟨rw1, rw2, rw3, rother, rdone, _⟩ := hrow
        refine ⟨rw1, rw2, rw3, ?_⟩
        intro a b hin
        obtain ⟨ha0, haw, hb0, hbh⟩ := hin
        show (colorRowStep cm input F n).getCell a b = _
        by_cases hbn : b = (n : Int)
        · subst hbn
          unfold colorRowStep
          rw [rdone a ha0 (by omega), ihcell a (n : Int) ⟨ha0, haw, hb0, hbh⟩,
            if_neg (by omega), if_pos (by omega)]
        · unfold colorRowStep
          rw [rother a b hbn, ihcell a b ⟨ha0, haw, hb0, hbh⟩]
          by_cases hblt : b < (n : Int)
          · rw [if_pos hblt, if_pos (by omega)]
          · rw [if_neg hblt, if_neg (by omega)]
  obtain ⟨h1, h2, _, h4⟩ := hmain input.height.toNat (le_refl _)
  refine ⟨h1, h2, ?_⟩
  intro x y hin
  rw [applyColorChangeInPlace, h4 x y hin,
    if_pos (by obtain ⟨_, _, _, hyh⟩ := hin; omega)]

/-- The claim's training-pair shape: the output has the input's dimensions
and every cell is the input cell with color `c1` replaced by `c2` (all
other cells unchanged). -/
def RecoloredPair (c1 c2 : Int) (i o : ARCGrid) : Prop :=
  o.width = i.width ∧ o.height = i.height ∧
    ∀ x y : Int, i.inBounds x y →
      o.getCell x y = (if i.getCell x y = c1 then c2 else i.getCell x y)

def hasColor (g : ARCGrid) (c : Int) : Prop :=
  ∃ x y : Int, g.inBounds x y ∧ g.getCell x y = c

theorem mem_colorSet_iff (g : ARCGrid) (c : Int) :
    c ∈ colorSet g ↔ hasColor g c := by
  unfold colorSet hasColor
  simp only [List.mem_toFinset, List.mem_flatMap, List.mem_map, List.mem_range]
  constructor
  · rintro ⟨yn, hyn, xn, hxn, heq⟩
    exact ⟨(xn : Int), (yn : Int), ⟨by omega, by omega, by omega, by omega⟩, heq⟩
  · rintro ⟨x, y, ⟨hx0, hxw, hy0, hyh⟩, heq⟩
    refine ⟨y.toNat, by omega, x.toNat, by omega, ?_⟩
    have e1 : ((x.toNat : Nat) : Int) = x := by omega
    have e2 : ((y.toNat : Nat) : Int) = y := by omega
    rw [e1, e2]
    exact heq

theorem colorSet_ne_of_recolored (c1 c2 : Int) (hc : c1 ≠ c2) (i o : ARCGrid)
    (hp : RecoloredPair c1 c2 i o) (hcol : hasColor i c1) :
    colorSet i ≠ colorSet o := by
  intro h
  have h1 : c1 ∈ colorSet i := (mem_colorSet_iff i c1).mpr hcol
  rw [h] at h1
  obtain ⟨x, y, hin, heq⟩ := (mem_colorSet_iff o c1).mp h1
  have hin2 : i.inBounds x y := by
    obtain ⟨a1, a2, a3, a4⟩ := hin
    rw [hp.1] at a2
    rw [hp.2.1] at a4
    exact ⟨a1, a2, a3, a4⟩
  have h2 := hp.2.2 x y hin2
  rw [heq] at h2
  split at h2
  · exact hc h2
  · rename_i hne
    exact hne h2.symm

theorem exampleVotes_of_recolored (c1 c2 : Int) (hc : c1 ≠ c2) (i o : ARCGrid)
    (hp : RecoloredPair c1 c2 i o) (hcol : hasColor i c1) :
    exampleVotes i o = ["color_change"] ∨
      exampleVotes i o = ["color_change", "pattern_change"] := by
  obtain ⟨hw, hh, hcells⟩ := hp
  unfold exampleVotes
  rw [if_neg (by omega),
    if_pos (colorSet_ne_of_recolored c1 c2 hc i o ⟨hw, hh, hcells⟩ hcol)]
  by_cases hpat : (detectPatterns i).length ≠ (detectPatterns o).length
  · right
    rw [if_pos hpat]
    rfl
  · left
    rw [if_neg hpat]
    rfl

theorem listCount_flatMap {α β : Type} [BEq α] (a : α) (f : β → List α)
    (l : List β) :
    (l.flatMap f).count a = (l.map (fun x => (f x).count a)).sum := by
  induction l with
  | nil => rfl
  | cons x rest ih => rw [List.flatMap_cons, List.count_append, List.map_cons,
      List.sum_cons, ih]

theorem sum_eq_length_of_forall_one {α : Type} (f : α → Nat) (l : List α)
    (h : ∀ x ∈ l, f x = 1) : (l.map f).sum = l.length := by
  induction l with
  | nil => rfl
  | cons x rest ih =>
      rw [List.map_cons, List.sum_cons, h x (by simp), List.length_cons,
        ih (fun x hx => h x (by simp [hx]))]
      omega

theorem sum_le_length_of_forall_le_one {α : Type} (f : α → Nat) (l : List α)
    (h : ∀ x ∈ l, f x ≤ 1) : (l.map f).sum ≤ l.length := by
  induction l with
  | nil => exact le_refl _
  | cons x rest ih =>
      rw [List.map_cons, List.sum_cons, List.length_cons]
      have := h x (by simp)
      have := ih (fun x hx => h x (by simp [hx]))
      omega

theorem sum_eq_zero_of_forall_zero {α : Type} (f : α → Nat) (l : List α)
    (h : ∀ x ∈ l, f x = 0) : (l.map f).sum = 0 := by
  induction l with
  | nil => rfl
  | cons x rest ih =>
      rw [List.map_cons, List.sum_cons, h x (by simp),
        ih (fun x hx => h x (by simp [hx]))]

theorem dominantRule_color_change (votes : List String)
    (hcc : 0 < votes.count "color_change")
    (hpc : votes.count "pattern_change" ≤ votes.count "color_change")
    (hsc : votes.count "size_change" ≤ votes.count "color_change") :
    dominantRule votes = "color_change" := by
  unfold dominantRule
  simp only [List.foldl_cons, List.foldl_nil]
  have h1 : ((("copy", 0) : String × Nat)).2 < votes.count "color_change" := hcc
  have h2 : ¬ ((("color_change", votes.count "color_change") : String × Nat)).2 <
      votes.count "pattern_change" := by
    show ¬ (votes.count "color_change" < votes.count "pattern_change")
    omega
  have h3 : ¬ ((("color_change", votes.count "color_change") : String × Nat)).2 <
      votes.count "size_change" := by
    show ¬ (votes.count "color_change" < votes.count "size_change")
    omega
  rw [if_pos h1, if_neg h2, if_neg h3]

theorem transformationVotes_dominant (c1 c2 : Int) (hc : c1 ≠ c2)
    (ins outs : List ARCGrid)
    (hpairs : List.Forall₂ (RecoloredPair c1 c2) ins outs)
    (hcol : ∀ i ∈ ins, hasColor i c1) (hne : ins ≠ []) :
    dominantRule (transformationVotes ins outs) = "color_change" := by
  have hzip : ∀ p ∈ ins.zip outs,
      exampleVotes p.1 p.2 = ["color_change"] ∨
        exampleVotes p.1 p.2 = ["color_change", "pattern_change"] := by
    intro p hpmem
    have hmem := List.of_mem_zip (a := p.1) (b := p.2) (by simpa using hpmem)
    have hR : RecoloredPair c1 c2 p.1 p.2 :=
      List.forall₂_zip hpairs (a := p.1) (b := p.2) (by simpa using hpmem)
    exact exampleVotes_of_recolored c1 c2 hc p.1 p.2 hR (hcol p.1 hmem.1)
  have hcc : (transformationVotes ins outs).count "color_change" =
      (ins.zip outs).length := by
    unfold transformationVotes
    rw [listCount_flatMap]
    apply sum_eq_length_of_forall_one
    intro p hp
    rcases hzip p hp with h | h
    · rw [h]
      rfl
    · rw [h]
      rfl
  have hsc : (transformationVotes ins outs).count "size_change" = 0 := by
    unfold transformationVotes
    rw [listCount_flatMap]
    apply sum_eq_zero_of_forall_zero
    intro p hp
    rcases hzip p hp with h | h
    · rw [h]
      rfl
    · rw [h]
      rfl
  have hpc : (transformationVotes ins outs).count "pattern_change" ≤
      (ins.zip outs).length := by
    unfold transformationVotes
    rw [listCount_flatMap]
    apply sum_le_length_of_forall_le_one
    intro p hp
    rcases hzip p hp with h | h
    · rw [h]
      decide
    · rw [h]
      decide
  have hlen : (ins.zip outs).length = ins.length := by
    rw [List.length_zip, hpairs.length_eq, min_self]
  apply dominantRule_color_change
  · rw [hcc, hlen]
    have : ins.length ≠ 0 := fun h => hne (List.length_eq_zero.mp h)
    omega
  · rw [hcc]
    exact hpc
  · rw [hsc]
    omega

theorem buildColorMapping_eq (c1 c2 : Int) (hc : c1 ≠ c2) (i o : ARCGrid)
    (restI restO : List ARCGrid)
    (hp : RecoloredPair c1 c2 i o) (hcol : hasColor i c1) :
    buildColorMapping (i :: restI) (o :: restO) = [(c1, c2)] := by
  obtain ⟨hw, hh, hcells⟩ := hp
  show (List.range (min i.height o.height).toNat).foldl
      (fun (m : List (Int × Int)) (yn : Nat) =>
        (List.range (min i.width o.width).toNat).foldl (fun m2 (xn : Nat) =>
          let inputColor := i.getCell (xn : Int) (yn : Int)
          let outputColor := o.getCell (xn : Int) (yn : Int)
          if inputColor ≠ outputColor then mapSet m2 inputColor outputColor
          else m2) m) [] = [(c1, c2)]
  have hmh : min i.height o.height = i.height := by omega
  have hmw : min i.width o.width = i.width := by omega
  rw [hmh, hmw]
  have hcong :
      (List.range i.height.toNat).foldl
        (fun (m : List (Int × Int)) (yn : Nat) =>
          (List.range i.width.toNat).foldl (fun m2 (xn : Nat) =>
            let inputColor := i.getCell (xn : Int) (yn : Int)
            let outputColor := o.getCell (xn : Int) (yn : Int)
            if inputColor ≠ outputColor then mapSet m2 inputColor outputColor
            else m2) m) [] =
      (List.range i.height.toNat).foldl
        (fun (m : List (Int × Int)) (yn : Nat) =>
          (List.range i.width.toNat).foldl (fun m2 (xn : Nat) =>
            if i.getCell (xn : Int) (yn : Int) = c1 then mapSet m2 c1 c2
            else m2) m) [] := by
    apply foldl_congr_mem
    intro m yn hyn
    apply foldl_congr_mem
    intro m2 xn hxn
    rw [List.mem_range] at hyn hxn
    have hin : i.inBounds (xn : Int) (yn : Int) := by
      unfold ARCGrid.inBounds
      omega
    have hoc := hcells (xn : Int) (yn : Int) hin
    dsimp only
    by_cases hic : i.getCell (xn : Int) (yn : Int) = c1
    · rw [if_pos hic, hic]
      rw [hic, if_pos rfl] at hoc
      rw [hoc, if_pos hc]
    · rw [if_neg hic]
      rw [if_neg hic] at hoc
      rw [hoc, if_neg (by simp)]
  rw [hcong,
    canonical_color_fold i.width.toNat i.height.toNat c1 c2
      (fun xn yn => i.getCell (xn : Int) (yn : Int) = c1)
      (fun m => mapSet m c1 c2) rfl (by simp [mapSet])]
  rw [if_pos ?_]
  obtain ⟨x, y, ⟨hx0, hxw, hy0, hyh⟩, heq⟩ := hcol
  refine ⟨y.toNat, by omega, x.toNat, by omega, ?_⟩
  have e1 : ((x.toNat : Nat) : Int) = x := by omega
  have e2 : ((y.toNat : Nat) : Int) = y := by omega
  rw [e1, e2]
  exact heq

theorem tryDiscoverColorMapping_eq (c1 c2 : Int) (hc : c1 ≠ c2)
    (hc1 : 0 ≤ c1) (hc2 : 0 ≤ c2) (e : FARCExample)
    (hp : RecoloredPair c1 c2 e.Input e.Output) (hcol : hasColor e.Input c1) :
    TryDiscoverColorMapping e =
      [⟨.ColorMapping, default, [(c1, c2)], none, 7/10⟩] := by
  obtain ⟨hw, hh, hcells⟩ := hp
  have hmh : min e.Input.height e.Output.height = e.Input.height := by omega
  have hmw : min e.Input.width e.Output.width = e.Input.width := by omega
  unfold TryDiscoverColorMapping
  rw [hmh, hmw]
  have hcong :
      (List.range e.Input.height.toNat).foldl
        (fun (m : List (Int × Int)) (yn : Nat) =>
          (List.range e.Input.width.toNat).foldl (fun m2 (xn : Nat) =>
            let InputColor := e.Input.getCell (xn : Int) (yn : Int)
            let OutputColor := e.Output.getCell (xn : Int) (yn : Int)
            if InputColor ≠ OutputColor ∧ 0 ≤ InputColor ∧ 0 ≤ OutputColor then
              if (m2.lookup InputColor).isNone then m2 ++ [(InputColor, OutputColor)]
              else m2
            else m2) m) [] =
      (List.range e.Input.height.toNat).foldl
        (fun (m : List (Int × Int)) (yn : Nat) =>
          (List.range e.Input.width.toNat).foldl (fun m2 (xn : Nat) =>
            if e.Input.getCell (xn : Int) (yn : Int) = c1 then
              (fun m3 => if (m3.lookup c1).isNone then m3 ++ [(c1, c2)] else m3) m2
            else m2) m) [] := by
    apply foldl_congr_mem
    intro m yn hyn
    apply foldl_congr_mem
    intro m2 xn hxn
    rw [List.mem_range] at hyn hxn
    have hin : e.Input.inBounds (xn : Int) (yn : Int) := by
      unfold ARCGrid.inBounds
      omega
    have hoc := hcells (xn : Int) (yn : Int) hin
    dsimp only
    by_cases hic : e.Input.getCell (xn : Int) (yn : Int) = c1
    · rw [if_pos hic] at hoc
      rw [hic, hoc, if_pos ⟨hc, hc1, hc2⟩, if_pos rfl]
    · rw [if_neg hic] at hoc
      rw [if_neg (by simp [hoc]), if_neg hic]
  have hex : ∃ y < e.Input.height.toNat, ∃ x < e.Input.width.toNat,
      e.Input.getCell (x : Int) (y : Int) = c1 := by
    obtain ⟨x, y, ⟨hx0, hxw, hy0, hyh⟩, heq⟩ := hcol
    refine ⟨y.toNat, by omega, x.toNat, by omega, ?_⟩
    have e1 : ((x.toNat : Nat) : Int) = x := by omega
    have e2 : ((y.toNat : Nat) : Int) = y := by omega
    rw [e1, e2]
    exact heq
  rw [hcong,
    canonical_color_fold e.Input.width.toNat e.Input.height.toNat c1 c2
      (fun xn yn => e.Input.getCell (xn : Int) (yn : Int) = c1)
      (fun m3 => if (m3.lookup c1).isNone then m3 ++ [(c1, c2)] else m3)
      (by simp) (by simp [List.lookup]), if_pos hex]
  rfl

theorem mappedColor_single (c1 c2 v : Int) :
    mappedColor [(c1, c2)] v = if v = c1 then c2 else v := by
  unfold mappedColor
  by_cases h : v = c1
  · subst h
    simp [List.lookup]
  · have hb : (v == c1) = false := beq_eq_false_iff_ne.mpr h
    simp [List.lookup, hb, h]

theorem GridsMatch_of_recolored (c1 c2 : Int) (e : FARCExample)
    (hp : RecoloredPair c1 c2 e.Input e.Output) :
    GridsMatch (applyColorMapping [(c1, c2)] e.Input) e.Output = true := by
  obtain ⟨hw, hh, hcells⟩ := hp
  unfold GridsMatch
  rw [if_neg (by simp [hw, hh])]
  simp only [List.all_eq_true, List.mem_range, beq_iff_eq,
    applyColorMapping_width, applyColorMapping_height]
  intro yn hyn xn hxn
  have hin : e.Input.inBounds (xn : Int) (yn : Int) := by
    unfold ARCGrid.inBounds
    omega
  rw [getCell_applyColorMapping _ _ _ _ hin, hcells _ _ hin]
  have := mappedColor_single c1 c2 (e.Input.getCell (xn : Int) (yn : Int))
  unfold mappedColor at this
  rw [this]

theorem validate_color_rule (c1 c2 : Int) (r : FTransformationRule)
    (hty : r.ttype = .ColorMapping) (hcm : r.ColorMap = [(c1, c2)])
    (examples : List FARCExample) (hne : examples ≠ [])
    (hall : ∀ e ∈ examples, RecoloredPair c1 c2 e.Input e.Output) :
    ValidateRulesAcrossExamples [r] examples = [{ r with Confidence := 1 }] := by
  have happ : ∀ e ∈ examples,
      GridsMatch (r.Apply e.Input) e.Output = true := by
    intro e he
    have : r.Apply e.Input = applyColorMapping [(c1, c2)] e.Input := by
      unfold FTransformationRule.Apply
      rw [hty]
      dsimp only
      rw [hcm]
    rw [this]
    exact GridsMatch_of_recolored c1 c2 e (hall e he)
  have hcount : examples.countP
      (fun e => GridsMatch (r.Apply e.Input) e.Output) = examples.length := by
    rw [List.countP_eq_length]
    exact happ
  unfold ValidateRulesAcrossExamples
  simp only [List.map_cons, List.map_nil]
  rw [hcount]
  have hlen : ((examples.length : ℚ)) ≠ 0 := by
    have : examples.length ≠ 0 := fun h => hne (List.length_eq_zero.mp h)
    exact_mod_cast this
  rw [div_self hlen]
  rw [List.filter_cons_of_pos (by norm_num), List.filter_nil,
    List.mergeSort_singleton]

/-- **C4.** Given training pairs in which the single color `c1` is always
replaced by `c2` and no other cell changes (each input actually containing
`c1`), the solver: (i) selects the `color_change` rule; (ii) builds exactly
the mapping `c1 ↦ c2`; (iii) returns a grid of the test input's dimensions
whose every cell is the test cell with `c1` replaced by `c2` and all other
colors unchanged; and (iv) in the `PatternDecoder` engine, the discovered
`ColorMapping` rule carries exactly the map `c1 ↦ c2` and revalidates
across any nonempty set of such examples with confidence `1.0`. -/
theorem C4_color_mapping_discovery (c1 c2 : Int) (hc : c1 ≠ c2)
    (hc1 : 0 ≤ c1) (hc2 : 0 ≤ c2)
    (ins outs : List ARCGrid) (test : ARCGrid)
    (hpairs : List.Forall₂ (RecoloredPair c1 c2) ins outs)
    (hcol : ∀ i ∈ ins, hasColor i c1) (hne : ins ≠ []) (hwf : test.Wf)
    (e0 : FARCExample) (hp0 : RecoloredPair c1 c2 e0.Input e0.Output)
    (hcol0 : hasColor e0.Input c1)
    (examples : List FARCExample) (hne2 : examples ≠ [])
    (hall : ∀ e ∈ examples, RecoloredPair c1 c2 e.Input e.Output) :
    dominantRule (transformationVotes ins outs) = "color_change" ∧
    buildColorMapping ins outs = [(c1, c2)] ∧
    (solveTransformation ins outs test).width = test.width ∧
    (solveTransformation ins outs test).height = test.height ∧
    (∀ x y : Int, test.inBounds x y →
      (solveTransformation ins outs test).getCell x y =
        (if test.getCell x y = c1 then c2 else test.getCell x y)) ∧
    ValidateRulesAcrossExamples (TryDiscoverColorMapping e0) examples =
      [⟨.ColorMapping, default, [(c1, c2)], none, 1⟩] := by
  have hdom := transformationVotes_dominant c1 c2 hc ins outs hpairs hcol hne
  have hmap : buildColorMapping ins outs = [(c1, c2)] := by
    cases hpairs with
    | nil => exact absurd rfl hne
    | cons hp hrest =>
        rename_i i o restI restO
        exact buildColorMapping_eq c1 c2 hc i o restI restO hp
          (hcol i (by simp))
  have hsolve : solveTransformation ins outs test =
      applyColorChangeInPlace [(c1, c2)] test := by
    unfold solveTransformation
    rw [hdom]
    unfold applyTransformation
    rw [if_neg (by decide), if_neg (by decide), if_pos rfl, hmap]
  obtain ⟨hsw, hsh, hscell⟩ := applyColorChangeInPlace_spec [(c1, c2)] test hwf
  have hdisc := tryDiscoverColorMapping_eq c1 c2 hc hc1 hc2 e0 hp0 hcol0
  refine ⟨hdom, hmap, ?_, ?_, ?_, ?_⟩
  · rw [hsolve, hsw]
  · rw [hsolve, hsh]
  · intro x y hin
    rw [hsolve, hscell x y hin, mappedColor_single]
  · rw [hdisc, validate_color_rule c1 c2 _ rfl rfl examples hne2 hall]

/-- The claim's concrete test input: `3 × 3`, single non-background cell
`(0,0) = 1`. -/
def testGrid33 : ARCGrid := (mkGrid 3 3).setCell 0 0 1

/-- Witness for C4 at the claim's concrete scenario: two identical `3 × 3`
training pairs whose only change is `(1,1)` going `1 → 2`; solving the test
grid with `(0,0) = 1` recolors that cell to `2`. -/
theorem C4_color_mapping_discovery_witness :
    (solveTransformation [gridIn33, gridIn33] [gridOut33, gridOut33]
        testGrid33).getCell 0 0 = 2 ∧
    dominantRule (transformationVotes [gridIn33, gridIn33]
        [gridOut33, gridOut33]) = "color_change" ∧
    buildColorMapping [gridIn33, gridIn33] [gridOut33, gridOut33] = [(1, 2)] := by
  have hRP : RecoloredPair 1 2 gridIn33 gridOut33 := by
    refine ⟨by decide, by decide, ?_⟩
    intro x y hin
    obtain ⟨ha, hb, hcy, hd⟩ := hin
    have hw3 : gridIn33.width = 3 := by decide
    have hh3 : gridIn33.height = 3 := by decide
    rw [hw3] at hb
    rw [hh3] at hd
    interval_cases x <;> interval_cases y <;> decide
  have hcolI : hasColor gridIn33 1 := ⟨1, 1, by decide, by decide⟩
  have h := C4_color_mapping_discovery 1 2 (by decide) (by decide) (by decide)
    [gridIn33, gridIn33] [gridOut33, gridOut33] testGrid33
    (.cons hRP (.cons hRP .nil))
    (by
      intro i hi
      simp at hi
      subst hi
      exact hcolI)
    (by simp)
    (setCell_wf _ _ _ _ (mkGrid_wf 3 3 (by decide) (by decide)))
    ⟨gridIn33, gridOut33⟩ hRP hcolI
    [⟨gridIn33, gridOut33⟩] (by simp)
    (by
      intro e he
      simp at he
      subst he
      exact hRP)
  obtain ⟨h1, h2, h3, h4, h5, h6⟩ := h
  refine ⟨?_, h1, h2⟩
  rw [h5 0 0 (by decide)]
  decide

/-! ## C6: gravitational update sampling -/

/-- Modelled from the SPEC's words for C6 (not from the source), for
comparison with `updateNeuronDynamics`: the spec claims that with a
population of at most `100` every *other* neuron contributes to the force
on neuron `i`.  This definition sums over all other indices; everything
else (distance floor, acceleration, integration, sequential in-place
update) follows the source. -/
def updateNeuronDynamicsAllOthers (sqrtQ : ℚ → ℚ) (deltaTime : ℚ)
    (neurons : List GNeuron) : List GNeuron :=
  let N := neurons.length
  (List.range N).foldl (fun ns (i : Nat) =>
    let n := ns.getD i default
    let totalForce :=
      (List.range N).foldl (fun F (j : Nat) =>
        if j = i then F
        else
          let other := ns.getD j default
          let r : Vec3 := other.position - n.position
          let distance := sqrtQ (normSq r)
          if 1/10 < distance then
            F + (GRAVITATIONAL_CONSTANT * n.mass * other.mass /
              (distance * distance)) • vnormalized sqrtQ r
          else F) ((0, 0, 0) : Vec3)
    let acceleration := (1 / n.mass) • totalForce
    let v2 := n.velocity + deltaTime • acceleration
    let p2 := n.position + deltaTime • v2
    ns.set i { n with velocity := v2, position := p2, age := n.age + deltaTime })
    neurons

/-- The force contribution of the sampled index `idx` to neuron `i` (zero
for a self-draw and below the `0.1` distance floor). -/
def gravSample (sqrtQ : ℚ → ℚ) (ns : List GNeuron) (i idx : Nat) : Vec3 :=
  if idx = i then 0
  else
    let n := ns.getD i default
    let other := ns.getD idx default
    let r : Vec3 := other.position - n.position
    let distance := sqrtQ (normSq r)
    if 1/10 < distance then
      (GRAVITATIONAL_CONSTANT * n.mass * other.mass / (distance * distance)) •
        vnormalized sqrtQ r
    else 0

/-- The amended reading of the gravitational update, stated independently of
the fold: per neuron (in index order, reading the partially updated array)
the force is the sum of `min 100 N` contributions, one per independent draw
uniform over ALL `N` indices (sampling with replacement — NOT "all other
neurons" when `N ≤ 100`), self-draws contributing nothing; then `a = F/m`,
`v += a·dt`, and `p += v·dt` with the NEW velocity (semi-implicit, not
forward, Euler). -/
def gravUpdateSpec (sqrtQ : ℚ → ℚ) (draw : Nat → Nat → Nat) (deltaTime : ℚ)
    (neurons : List GNeuron) : List GNeuron :=
  let N := neurons.length
  (List.range N).foldl (fun ns (i : Nat) =>
    let n := ns.getD i default
    let totalForce :=
      ((List.range (min 100 N)).map (fun (j : Nat) =>
        gravSample sqrtQ ns i (draw i j % N))).sum
    let acceleration := (1 / n.mass) • totalForce
    let v2 := n.velocity + deltaTime • acceleration
    let p2 := n.position + deltaTime • v2
    ns.set i { n with velocity := v2, position := p2, age := n.age + deltaTime })
    neurons

/-- C6 (amended): the gravitational update draws `min 100 N` sample indices
per neuron uniformly over the whole population WITH replacement (skipping
self-draws), sums `G·m_i·m_j/d²` contributions over draws at distance above
the `0.1` floor, and integrates `v += (F/m)·dt` then `p += v_new·dt`
(semi-implicit Euler), updating neurons sequentially in place —
`updateNeuronDynamics` equals `gravUpdateSpec` for every oracle, time step
and population. -/
theorem C6_gravitational_update (sqrtQ : ℚ → ℚ) (draw : Nat → Nat → Nat)
    (deltaTime : ℚ) (neurons : List GNeuron) :
    updateNeuronDynamics sqrtQ draw deltaTime neurons =
      gravUpdateSpec sqrtQ draw deltaTime neurons := by
  unfold updateNeuronDynamics gravUpdateSpec
  have hstep : ∀ (ns : List GNeuron) (i : Nat),
      (List.range (min 100 neurons.length)).foldl (fun F (j : Nat) =>
        let idx := draw i j % neurons.length
        if idx = i then F
        else
          let other := ns.getD idx default
          let r : Vec3 := other.position - (ns.getD i default).position
          let distance := sqrtQ (normSq r)
          if 1/10 < distance then
            F + (GRAVITATIONAL_CONSTANT * (ns.getD i default).mass * other.mass /
              (distance * distance)) • vnormalized sqrtQ r
          else F) ((0, 0, 0) : Vec3) =
      ((List.range (min 100 neurons.length)).map (fun (j : Nat) =>
        gravSample sqrtQ ns i (draw i j % neurons.length))).sum := by
    intro ns i
    have hfun : (fun (F : Vec3) (j : Nat) =>
        let idx := draw i j % neurons.length
        if idx = i then F
        else
          let other := ns.getD idx default
          let r : Vec3 := other.position - (ns.getD i default).position
          let distance := sqrtQ (normSq r)
          if 1/10 < distance then
            F + (GRAVITATIONAL_CONSTANT * (ns.getD i default).mass * other.mass /
              (distance * distance)) • vnormalized sqrtQ r
          else F) =
        (fun (F : Vec3) (j : Nat) =>
          F + gravSample sqrtQ ns i (draw i j % neurons.length)) := by
      funext F j
      dsimp only
      unfold gravSample
      by_cases h : draw i j % neurons.length = i
      · rw [if_pos h, if_pos h, add_zero]
      · rw [if_neg h, if_neg h]
        dsimp only
        split
        · rfl
        · rw [add_zero]
    rw [hfun, foldl_add_sum]
    have h0 : ((0, 0, 0) : Vec3) = 0 := rfl
    rw [h0, zero_add]
  dsimp only at hstep ⊢
  congr 1
  funext ns i
  rw [hstep ns i]

/-- Neuron at the origin, unit mass, at rest. -/
def n0C6 : GNeuron := ⟨(0, 0, 0), (0, 0, 0), 1, 1, 0⟩

/-- Neuron at distance `1` from the origin, unit mass, at rest. -/
def n1C6 : GNeuron := ⟨(1, 0, 0), (0, 0, 0), 1, 1, 0⟩

/-- Counterexample for C6 as stated: with a population of `2 ≤ 100` there is
an admissible random stream (`rng() % 2` returning the neuron's own index on
every draw) under which `updateNeuronDynamics` imparts NO velocity to neuron
`0`, although the other neuron sits at distance `1 > 0.1` — whereas the
spec's "all neurons if the population is ≤ 100" reading
(`updateNeuronDynamicsAllOthers`) necessarily accelerates it.  The sampling
is with replacement, not a subset, and never guarantees coverage of all
other neurons. -/
theorem C6_sampling_counterexample :
    [n0C6, n1C6].length ≤ 100 ∧
    ((updateNeuronDynamics id (fun i _ => i) 1 [n0C6, n1C6]).getD 0
        default).velocity = (0, 0, 0) ∧
    ((updateNeuronDynamicsAllOthers id 1 [n0C6, n1C6]).getD 0
        default).velocity ≠ (0, 0, 0) := by
  refine ⟨by decide, ?_, ?_⟩
  · show ((0 : ℚ), (0 : ℚ), (0 : ℚ)) + (1 : ℚ) • (((1 : ℚ)/1) • ((0, 0, 0) : Vec3)) = (0, 0, 0)
    norm_num [Prod.ext_iff]
  · show ((0 : ℚ), (0 : ℚ), (0 : ℚ)) + (1 : ℚ) • (((1 : ℚ)/1) •
      (if (1 : ℚ)/10 < id (normSq ((n1C6.position) - (n0C6.position))) then
        ((0, 0, 0) : Vec3) + (GRAVITATIONAL_CONSTANT * 1 * 1 /
          (id (normSq ((n1C6.position) - (n0C6.position))) *
            id (normSq ((n1C6.position) - (n0C6.position))))) •
          vnormalized id ((n1C6.position) - (n0C6.position))
      else (0, 0, 0))) ≠ ((0, 0, 0) : Vec3)
    rw [if_pos (by norm_num [n0C6, n1C6, normSq, Prod.ext_iff])]
    norm_num [n0C6, n1C6, normSq, vnormalized, GRAVITATIONAL_CONSTANT,
      Prod.ext_iff]

/-! ## C9: diversity controller luminosity bounds -/

theorem clampQ_mem (x lo hi : ℚ) (h : lo ≤ hi) :
    lo ≤ clampQ x lo hi ∧ clampQ x lo hi ≤ hi := by
  unfold clampQ
  by_cases h1 : x < lo
  · rw [if_pos h1]
    exact ⟨le_refl _, h⟩
  · rw [if_neg h1]
    by_cases h2 : x < hi
    · rw [if_pos h2]
      exact ⟨not_lt.mp h1, le_of_lt h2⟩
    · rw [if_neg h2]
      exact ⟨h, le_refl _⟩

theorem thermal_bounds (R : DivRand) (T dt : ℚ) (Neurons : List FNeuronState) :
    ∀ n ∈ ApplyThermalNoise R T dt Neurons,
      1/10 ≤ n.Luminosity ∧ n.Luminosity ≤ 100 := by
  intro n hn
  unfold ApplyThermalNoise enumMap at hn
  simp only [List.mem_map, List.mem_range] at hn
  obtain ⟨i, hi, heq⟩ := hn
  rw [← heq]
  exact clampQ_mem _ _ _ (by norm_num)

theorem mem_listUpdate {α : Type} (l : List α) (i : Nat) (f : α → α) :
    ∀ x ∈ listUpdate l i f, x ∈ l ∨ ∃ a ∈ l, x = f a := by
  induction l generalizing i with
  | nil => simp [listUpdate]
  | cons a rest ih =>
      cases i with
      | zero =>
          intro x hx
          rcases List.mem_cons.mp hx with hx | hx
          · exact Or.inr ⟨a, by simp, hx⟩
          · exact Or.inl (List.mem_cons_of_mem _ hx)
      | succ m =>
          intro x hx
          rcases List.mem_cons.mp hx with hx | hx
          · exact Or.inl (by simp [hx])
          · rcases ih m x hx with hx2 | ⟨a2, ha2, he2⟩
            · exact Or.inl (List.mem_cons_of_mem _ hx2)
            · exact Or.inr ⟨a2, List.mem_cons_of_mem _ ha2, he2⟩

theorem inhibition_bounds (R : DivRand) (ns : List FNeuronState)
    (hexp : ∀ q, 0 ≤ R.expQ q)
    (h : ∀ n ∈ ns, 0 < n.Luminosity ∧ n.Luminosity ≤ 100) :
    ∀ n ∈ ApplyLateralInhibition R ns,
      0 < n.Luminosity ∧ n.Luminosity ≤ 100 := by
  intro n hn
  unfold ApplyLateralInhibition enumMap at hn
  simp only [List.mem_map, List.mem_range] at hn
  obtain ⟨j, hj, heq⟩ := hn
  have hfield : 0 ≤ ((List.range ns.length).map (fun i =>
      let ni := ns.getD i default
      let nj := ns.getD j default
      let Distance := R.sqrtQ (normSq (ni.Position - nj.Position))
      if i ≠ j ∧ 5 < ni.Luminosity ∧ Distance < 500 then
        (1/2) * ni.Luminosity * R.expQ (-Distance / 500)
      else 0)).sum := by
    apply List.sum_nonneg
    intro x hx
    simp only [List.mem_map, List.mem_range] at hx
    obtain ⟨i, hi, hxeq⟩ := hx
    rw [← hxeq]
    split
    · rename_i hcond
      exact mul_nonneg (mul_nonneg (by norm_num) (by linarith [hcond.2.1]))
        (hexp _)
    · exact le_refl _
  have hmem : ns.getD j default ∈ ns := by
    have hjlen : j < ns.length := hj
    rw [List.getD_eq_getElem ns default hjlen]
    exact List.getElem_mem hjlen
  obtain ⟨hl0, hl100⟩ := h _ hmem
  rw [← heq]
  constructor
  · split <;>
    · exact div_pos hl0 (by linarith)
  · split <;>
    · calc (ns.getD j default).Luminosity / (1 + _) ≤
          (ns.getD j default).Luminosity := by
            apply div_le_self (le_of_lt hl0)
            linarith
        _ ≤ 100 := hl100

theorem pressure_bounds (Clusters : List (List Nat))
    (ns : List FNeuronState)
    (h : ∀ n ∈ ns, 0 < n.Luminosity ∧ n.Luminosity ≤ 100) :
    ∀ n ∈ ApplyDiversityPressure Clusters ns,
      0 < n.Luminosity ∧ n.Luminosity ≤ 100 := by
  unfold ApplyDiversityPressure
  refine foldl_invariant
    (fun (l : List FNeuronState) => ∀ n ∈ l, 0 < n.Luminosity ∧ n.Luminosity ≤ 100) _ _ _ h ?_
  intro b Cluster _ hb
  split
  · refine foldl_invariant
      (fun (l : List FNeuronState) => ∀ n ∈ l, 0 < n.Luminosity ∧ n.Luminosity ≤ 100) _ _ _ hb ?_
    intro b2 ID _ hb2
    intro x hx
    rcases mem_listUpdate _ _ _ x hx with hx2 | ⟨a2, ha2, he2⟩
    · exact hb2 x hx2
    · obtain ⟨h0, h100⟩ := hb2 a2 ha2
      rw [he2]
      dsimp only
      constructor
      · positivity
      · nlinarith
  · exact hb

/-- C9 (amended): on iterations that are not multiples of `100` (no random
perturbation) and for any exponential oracle that is nonnegative (as the
real `exp` is), every neuron's luminosity after `UpdateSystemDynamics` lies
in `(0, 100]`: the thermal-noise clamp to `[0.1, 100]` holds only until
lateral inhibition divides the luminosity by `1 + field` (which can push it
below `0.1` but keeps it positive) and diversity pressure damps it by
`0.95`.  The original `[0.1, 100]` bound is false — see the counterexample
— and on perturbation iterations the luminosity can also exceed `100` (the
`×[2,5]` spike), while velocity is never clamped at all. -/
theorem C9_luminosity_bounds (R : DivRand) (Clusters : List (List Nat))
    (T dt : ℚ) (iter : Int) (Neurons : List FNeuronState)
    (hexp : ∀ q, 0 ≤ R.expQ q) (hiter : iter % 100 ≠ 0) :
    ∀ n ∈ (UpdateSystemDynamics R Clusters T dt iter Neurons).1,
      0 < n.Luminosity ∧ n.Luminosity ≤ 100 := by
  unfold UpdateSystemDynamics
  dsimp only
  rw [if_neg hiter]
  have h1 := thermal_bounds R T dt Neurons
  have h1b : ∀ n ∈ ApplyThermalNoise R T dt Neurons,
      0 < n.Luminosity ∧ n.Luminosity ≤ 100 :=
    fun n hn => ⟨by linarith [(h1 n hn).1], (h1 n hn).2⟩
  exact pressure_bounds Clusters _ (inhibition_bounds R _ hexp h1b)

/-- Oracle with `sqrt ≡ 0`, `exp ≡ 1`, all random draws degenerate. -/
def divRandC9 : DivRand :=
  ⟨fun _ => 0, fun _ => 1, fun _ => (0, 0, 0), fun _ => 0, fun _ => (0, 0, 0),
    fun _ => 0, fun _ => (0, 0, 0), fun _ => 1, fun _ => 1⟩

/-- Bright neuron (luminosity `100`) at the origin. -/
def nA9 : FNeuronState := ⟨(0, 0, 0), (0, 0, 0), 100, 0⟩

/-- Dim neuron (luminosity `0.1`, the claimed lower clamp) at the origin. -/
def nB9 : FNeuronState := ⟨(0, 0, 0), (0, 0, 0), 1/10, 0⟩

/-- Counterexample for C9 as stated: a bright neighbour inhibits the dim
neuron (inhibition field `= 0.5·100·exp(0) = 50`), dividing its luminosity
to `(0.1)/51 = 1/510 < 0.1` — after `UpdateSystemDynamics` (with an empty
cluster list, so no diversity pressure is even involved) the luminosity
lies strictly below the claimed clamp range `[0.1, 100]`. -/
theorem C9_luminosity_counterexample :
    (((UpdateSystemDynamics divRandC9 [] 1000 1 1 [nA9, nB9]).1.getD 1
        default).Luminosity) < 1/10 := by
  norm_num [UpdateSystemDynamics, ApplyThermalNoise, ApplyLateralInhibition,
    ApplyDiversityPressure, enumMap, listUpdate, clampQ, divRandC9, nA9, nB9,
    normSq, List.range_succ, Prod.ext_iff]

/-- Witness for C9's amended theorem at a concrete oracle, cluster list,
iteration and population. -/
theorem C9_luminosity_bounds_witness :
    (∀ q : ℚ, 0 ≤ divRandC9.expQ q) ∧ ((1 : Int) % 100 ≠ 0) ∧
    ∀ n ∈ (UpdateSystemDynamics divRandC9 [] 1000 1 1 [nA9]).1,
      0 < n.Luminosity ∧ n.Luminosity ≤ 100 :=
  ⟨fun _ => zero_le_one, by decide,
    C9_luminosity_bounds divRandC9 [] 1000 1 1 [nA9]
      (fun _ => zero_le_one) (by decide)⟩
